import Mathlib

/-!
Verification development for the RustyHearts decision engine.

The definitions below are a shallow embedding of the Rust sources
(`src/rust/src/card.rs`, `src/rust/src/hearts.rs`, `src/rust/src/hearts_ai.rs`).
Modelling conventions, used consistently:

* `Vec<Card>` becomes `List Card`; `HashSet` becomes a duplicate-free `List`
  built with `insertSet` (HashSet iteration order is unspecified in Rust, the
  list order here is one concrete realization of it; every randomized choice
  is quantified over an arbitrary RNG stream, which covers all orders).
* An injected `rand::Rng` is modelled as a fixed stream `g : Nat -> Nat`
  together with a cursor `k : Nat`; each draw reads `g k` and advances the
  cursor.  `gen_range(0, n)` is `g k % n` (only evaluated for `n > 0`,
  mirroring the panic on an empty range).  The `f64` draw of
  `gen_range(0.0..1.0)` used by the mixed strategy is modelled as a 32-bit
  uniform rational `(g k % 2^32) / 2^32`.
* Rust panics (failed `assert!`, `unwrap` on `None`, out-of-range `Vec`
  slicing, `find_card` not finding its card) are modelled by `Option`:
  `none` is a panic, `some` a normal return.  Deep inside the Monte Carlo
  bookkeeping a handful of `Vec` indexings are modelled with `List.getD` /
  `List.set` defaults instead; these never influence any theorem below,
  which only constrain non-panicking executions.
* `usize`/`u32`/`i32` arithmetic is modelled on `Nat`/`Int` (the quantities
  involved are tiny, overflow never matters); `f64` equity arithmetic is
  modelled on `Rat` (exact arithmetic in place of rounding).
* Loops with a data-dependent iteration count (`loop` in the sampler, the
  `while` in `do_rollout`) are modelled by structural recursion on a fuel
  argument chosen at the call site to dominate the loop's progress measure,
  with fuel exhaustion mapped to `none`.
-/

namespace RH

/-! ## Card model (`card.rs`) -/

inductive Suit where
  | Clubs
  | Diamonds
  | Hearts
  | Spades
deriving DecidableEq

instance : Inhabited Suit := ⟨Suit.Clubs⟩

structure Rank where
  value : Nat
deriving DecidableEq

instance : Inhabited Rank := ⟨⟨2⟩⟩

structure Card where
  rank : Rank
  suit : Suit
deriving DecidableEq

instance : Inhabited Card := ⟨⟨⟨2⟩, Suit.Clubs⟩⟩

def Rank.TWO : Rank := ⟨2⟩
def Rank.JACK : Rank := ⟨11⟩
def Rank.QUEEN : Rank := ⟨12⟩
def Rank.KING : Rank := ⟨13⟩
def Rank.ACE : Rank := ⟨14⟩

/-- `for_each_card` enumerates ranks 2..14, suits in order C, D, H, S. -/
def allCards : List Card :=
  (List.range 13).flatMap (fun i =>
    [⟨⟨i + 2⟩, Suit.Clubs⟩, ⟨⟨i + 2⟩, Suit.Diamonds⟩,
     ⟨⟨i + 2⟩, Suit.Hearts⟩, ⟨⟨i + 2⟩, Suit.Spades⟩])

/-- `Deck::new()`: the 52 cards in `for_each_card` order. -/
def standardDeckCards : List Card := allCards

/-- `HashSet::insert` on the list model of a hash set. -/
def insertSet (l : List Card) (c : Card) : List Card :=
  if c ∈ l then l else l ++ [c]

/-- `ranks_for_suit`: ranks of the cards of `suit`, sorted descending
(the source sorts ascending and reverses). -/
def insertRankDesc (r : Rank) : List Rank → List Rank
  | [] => [r]
  | x :: xs => if x.value < r.value then r :: x :: xs else x :: insertRankDesc r xs

def sortRanksDesc (l : List Rank) : List Rank :=
  l.foldr insertRankDesc []

def ranksForSuit (cards : List Card) (suit : Suit) : List Rank :=
  sortRanksDesc ((cards.filter (fun c => c.suit = suit)).map (fun c => c.rank))

/-- `random_from_set`: draw `gen_range(0, |items|)` and take that element of
the set's iteration order (panic on an empty set). -/
def randomFromList {α : Type} (l : List α) (g : Nat → Nat) (k : Nat) :
    Option (α × Nat) :=
  if h : l.length = 0 then none
  else some (l.get ⟨g k % l.length, Nat.mod_lt _ (Nat.pos_of_ne_zero h)⟩, k + 1)

/-! ## Rules engine (`hearts.rs`) -/

def QUEEN_OF_SPADES : Card := ⟨Rank.QUEEN, Suit.Spades⟩
def TWO_OF_CLUBS : Card := ⟨Rank.TWO, Suit.Clubs⟩
def JACK_OF_DIAMONDS : Card := ⟨Rank.JACK, Suit.Diamonds⟩

inductive MoonShooting where
  | DISABLED
  | OPPONENTS_PLUS_26
deriving DecidableEq

structure RuleSet where
  num_players : Nat
  removed_cards : List Card
  point_limit : Nat
  points_on_first_trick : Bool
  queen_breaks_hearts : Bool
  jd_minus_10 : Bool
  moon_shooting : MoonShooting
deriving DecidableEq

def defaultRules : RuleSet :=
  { num_players := 4
    removed_cards := []
    point_limit := 100
    points_on_first_trick := false
    queen_breaks_hearts := false
    jd_minus_10 := false
    moon_shooting := MoonShooting.OPPONENTS_PLUS_26 }

def pointsForCard (c : Card) (rules : RuleSet) : Int :=
  if c.suit = Suit.Hearts then 1
  else if c = QUEEN_OF_SPADES then 13
  else if rules.jd_minus_10 ∧ c = JACK_OF_DIAMONDS then -10
  else 0

def pointsForCards (cards : List Card) (rules : RuleSet) : Int :=
  cards.foldl (fun points c => points + pointsForCard c rules) 0

structure Trick where
  leader : Nat
  cards : List Card
  winner : Nat
deriving DecidableEq

structure TrickInProgress where
  leader : Nat
  cards : List Card
deriving DecidableEq

def TrickInProgress.new (leader : Nat) : TrickInProgress := ⟨leader, []⟩

/-- `points_for_tricks` before the moon-shooting adjustment: accumulate each
trick's card points onto its winner. -/
def basePoints (tricks : List Trick) (rules : RuleSet) : List Int :=
  tricks.foldl
    (fun points t =>
      points.set t.winner (points.getD t.winner 0 + pointsForCards t.cards rules))
    (List.replicate rules.num_players 0)

/-- The inner loop of `moon_shooter` under `jd_minus_10`: undo the `-10` for
the winner of the first trick containing J-diamonds (note the `break`). -/
def addJDBack (points : List Int) : List Trick → List Int
  | [] => points
  | t :: rest =>
    if JACK_OF_DIAMONDS ∈ t.cards then
      points.set t.winner (points.getD t.winner 0 + 10)
    else addJDBack points rest

/-- `find_shooter`: `for p in 0..pts.len() { if pts[p] == 26 { return Some(p) } }`. -/
def findShooter (pts : List Int) : Option Nat :=
  (List.range pts.length).find? (fun p => pts.getD p 0 = 26)

def moonShooter (tricks : List Trick) (points : List Int) (rules : RuleSet) :
    Option Nat :=
  if rules.jd_minus_10 then findShooter (addJDBack points tricks)
  else findShooter points

/-- The per-player totals `moon_shooter` scans, i.e. the totals with the
J-diamonds `-10` adjustment undone. -/
def pointsWithoutJD (tricks : List Trick) (rules : RuleSet) : List Int :=
  if rules.jd_minus_10 then addJDBack (basePoints tricks rules) tricks
  else basePoints tricks rules

def pointsForTricks (tricks : List Trick) (rules : RuleSet) : List Int :=
  let points := basePoints tricks rules
  if rules.moon_shooting ≠ MoonShooting.DISABLED then
    match moonShooter tricks points rules with
    | some shooter =>
      (List.range rules.num_players).foldl
        (fun pts p =>
          pts.set p (pts.getD p 0 + if p = shooter then -26 else 26))
        points
    | none => points
  else points

/-- `highest_in_trick`: among the cards following the led suit, the one of
maximal rank (`max_by` keeps the last maximum; `unwrap` on an empty trick is
a panic, modelled as `none`). -/
def maxByRankLast (l : List Card) : Option Card :=
  l.foldl
    (fun acc c =>
      match acc with
      | none => some c
      | some m => if m.rank.value ≤ c.rank.value then some c else some m)
    none

/-- `min_by` keeps the first minimum. -/
def minByRankFirst (l : List Card) : Option Card :=
  l.foldl
    (fun acc c =>
      match acc with
      | none => some c
      | some m => if c.rank.value < m.rank.value then some c else some m)
    none

def highestInTrick (cards : List Card) : Option Card :=
  maxByRankLast (cards.filter (fun c => c.suit = (cards.headD default).suit))

def areHeartsBroken (currentTrick : TrickInProgress) (prevTricks : List Trick)
    (rules : RuleSet) : Bool :=
  let qb := rules.queen_breaks_hearts
  let breaks := fun (c : Card) =>
    c.suit == Suit.Hearts || (qb && c == QUEEN_OF_SPADES)
  prevTricks.any (fun t => t.cards.any breaks) || currentTrick.cards.any breaks

def legalPlays (hand : List Card) (currentTrick : TrickInProgress)
    (prevTricks : List Trick) (rules : RuleSet) : List Card :=
  if prevTricks.isEmpty then
    -- First trick.
    if currentTrick.cards.isEmpty then
      -- First play must be 2C.
      if TWO_OF_CLUBS ∈ hand then [TWO_OF_CLUBS] else []
    else
      -- Follow suit if possible.
      let lead := (currentTrick.cards.headD default).suit
      let suitMatches := hand.filter (fun c => c.suit = lead)
      if ¬suitMatches.isEmpty then suitMatches
      else if ¬rules.points_on_first_trick then
        let nonPoints := hand.filter (fun c => pointsForCard c rules ≤ 0)
        if ¬nonPoints.isEmpty then nonPoints else hand
      else hand
  else if currentTrick.cards.isEmpty then
    -- Leading a new trick; remove hearts unless broken or there is no choice.
    if ¬areHeartsBroken currentTrick prevTricks rules then
      let nonHearts := hand.filter (fun c => c.suit ≠ Suit.Hearts)
      if ¬nonHearts.isEmpty then nonHearts else hand
    else hand
  else
    -- Follow suit if possible; otherwise play anything.
    let lead := (currentTrick.cards.headD default).suit
    let suitMatches := hand.filter (fun c => c.suit = lead)
    if suitMatches.isEmpty then hand else suitMatches

def trickWinnerIndex (cards : List Card) : Nat :=
  let first := cards.headD default
  ((cards.enum.drop 1).foldl
    (fun best x =>
      if x.2.suit = first.suit ∧ best.2.value < x.2.rank.value
      then (x.1, x.2.rank) else best)
    (0, first.rank)).1

/-! ## Round state machine (`hearts.rs`) -/

structure Player where
  hand : List Card
  passed_cards : List Card
  received_cards : List Card
deriving DecidableEq

instance : Inhabited Player := ⟨⟨[], [], []⟩⟩

def Player.new (hand : List Card) : Player := ⟨hand, [], []⟩

inductive RoundStatus where
  | Passing
  | Playing
deriving DecidableEq

structure Round where
  rules : RuleSet
  players : List Player
  initial_scores : List Int
  pass_direction : Nat
  num_passed_cards : Nat
  status : RoundStatus
  current_trick : TrickInProgress
  prev_tricks : List Trick
deriving DecidableEq

/-- `find_card`: index of the first player holding `target`
(`panic!` when nobody does, modelled as `none`). -/
def findCard (players : List Player) (target : Card) : Option Nat :=
  ((players.enum).find? (fun x => target ∈ x.2.hand)).map (fun x => x.1)

/-- `Round::deal`.  The source hardcodes 4 players of 13 cards each
(`deck.cards[13*i..13*(i+1)]`); out-of-range slicing and a missing 2C are
panics, modelled as `none`. -/
def deal (deckCards : List Card) (rules : RuleSet) (scores : List Int)
    (passDirection : Nat) : Option Round :=
  if deckCards.length < 52 then none
  else
    let players := (List.range 4).map
      (fun i => Player.new ((deckCards.drop (13 * i)).take 13))
    match findCard players TWO_OF_CLUBS with
    | none => none
    | some currentPlayerIndex =>
      some
        { rules := rules
          players := players
          initial_scores := scores
          num_passed_cards := 3
          pass_direction := passDirection
          status := if passDirection = 0 then RoundStatus.Playing
                    else RoundStatus.Passing
          current_trick := TrickInProgress.new currentPlayerIndex
          prev_tricks := [] }

def Round.isOver (r : Round) : Bool :=
  r.players.all (fun p => p.hand.isEmpty)

def Round.pointsTaken (r : Round) : List Int :=
  pointsForTricks r.prev_tricks r.rules

def Round.currentPlayerIndex (r : Round) : Nat :=
  (r.current_trick.leader + r.current_trick.cards.length) % r.rules.num_players

def Round.currentPlayer (r : Round) : Player :=
  r.players.getD r.currentPlayerIndex default

def Round.legalPlaysR (r : Round) : List Card :=
  legalPlays r.currentPlayer.hand r.current_trick r.prev_tricks r.rules

/-- `Round::can_pass_cards`. -/
def Round.canPassCards (r : Round) (playerIndex : Nat) (cards : List Card) :
    Bool :=
  cards.length = r.num_passed_cards &&
    cards.all (fun c => c ∈ (r.players.getD playerIndex default).hand)

/-- `Round::ready_to_pass_cards`. -/
def Round.readyToPassCards (r : Round) : Bool :=
  r.status == RoundStatus.Passing &&
    r.players.all (fun p => p.passed_cards.length = r.num_passed_cards)

/-- Body of the first loop of `Round::pass_cards`: deliver seat `pnum`'s
selection to its destination's `received_cards`. -/
def deliverStep (numPlayers passDirection : Nat) (ps : List Player)
    (pnum : Nat) : List Player :=
  let passDest := (pnum + passDirection) % numPlayers
  ps.set passDest
    { ps.getD passDest default with
        received_cards := (ps.getD pnum default).passed_cards }

/-- First loop of `Round::pass_cards`. -/
def deliverPassedCards (players : List Player) (numPlayers passDirection : Nat) :
    List Player :=
  (List.range numPlayers).foldl (deliverStep numPlayers passDirection) players

/-- Second loop of `Round::pass_cards`: each hand becomes received cards
followed by the kept cards.  The source `assert_eq!`s that the hand length is
unchanged; a violated assertion is a panic, modelled as `none`. -/
def rebuildHand (p : Player) : Player :=
  { p with hand :=
      p.received_cards ++ p.hand.filter (fun c => c ∉ p.passed_cards) }

def Round.passCards (r : Round) : Option Round :=
  if ¬r.readyToPassCards then none
  else
    let numPlayers := r.rules.num_players
    let players1 := deliverPassedCards r.players numPlayers r.pass_direction
    let players2 := players1.map rebuildHand
    if ¬((players1.zip players2).all
          (fun pp => pp.2.hand.length = pp.1.hand.length)) then none
    else
      match findCard players2 TWO_OF_CLUBS with
      | none => none
      | some leader =>
        some
          { r with
              players := players2
              current_trick := { r.current_trick with leader := leader }
              status := RoundStatus.Playing }

/-- `Round::play_card`, returned as (result, state after the call): the `Err`
path leaves the round untouched. -/
def Round.playCard (r : Round) (card : Card) : Except Unit Unit × Round :=
  match (r.currentPlayer.hand).indexOf? card with
  | none => (Except.error (), r)
  | some index =>
    let newHand := (r.currentPlayer.hand).eraseIdx index
    let newPlayers :=
      r.players.set r.currentPlayerIndex { r.currentPlayer with hand := newHand }
    let newTrickCards := r.current_trick.cards ++ [card]
    if newTrickCards.length = r.players.length then
      let winnerIndex := trickWinnerIndex newTrickCards
      let winner := (r.current_trick.leader + winnerIndex) % r.players.length
      (Except.ok (),
        { r with
            players := newPlayers
            prev_tricks := r.prev_tricks ++
              [⟨r.current_trick.leader, newTrickCards, winner⟩]
            current_trick := TrickInProgress.new winner })
    else
      (Except.ok (),
        { r with
            players := newPlayers
            current_trick := { r.current_trick with cards := newTrickCards } })

/-! ## Constrained sampler (`card.rs`) -/

/-- The two `CardError`s the sampler can produce (the source carries the
corresponding message strings). -/
inductive CardError where
  | cannotSatisfy             -- "Cannot satisfy constraints"
  | unsatisfiableAfterRetries -- "Cannot satisfy constraints after 10000 attempts"
deriving DecidableEq

structure CardDistributionPlayerConstraint where
  num_cards : Nat
  voided_suits : List Suit
  fixed_cards : List Card
deriving DecidableEq

instance : Inhabited CardDistributionPlayerConstraint := ⟨⟨0, [], []⟩⟩

structure CardDistributionRequest where
  cards : List Card
  constraints : List CardDistributionPlayerConstraint
deriving DecidableEq

/-- Initial legal pool for player `i`: cards of the request in suits not
voided for `i`, minus every other player's fixed cards (built in the
request's card order, deduplicated as a `HashSet` would). -/
def initialLegalPool (req : CardDistributionRequest) (i : Nat) : List Card :=
  let cs := req.constraints.getD i default
  let afterSuits := req.cards.foldl
    (fun acc c => if c.suit ∉ cs.voided_suits then insertSet acc c else acc) []
  afterSuits.filter
    (fun c => ∀ j < req.constraints.length,
      j ≠ i → c ∉ (req.constraints.getD j default).fixed_cards)

/-- The mutable state of `_possible_card_distribution`'s main loop. -/
structure DistState where
  result : List (List Card)
  legal : List (List Card)
deriving DecidableEq

def initialDistState (req : CardDistributionRequest) : DistState :=
  { result := List.replicate req.constraints.length []
    legal := (List.range req.constraints.length).map (initialLegalPool req) }

/-- The first `for i in 0..num_players` scan of the loop body: report the
first player whose remaining need exceeds their pool (`Err`), else the first
player whose need equals their pool size (forced to take it all), else that
no forced pick exists. -/
inductive ForcedScanResult where
  | fail
  | take (i : Nat)
  | clear
deriving DecidableEq

def forcedScanFrom (cons : List CardDistributionPlayerConstraint)
    (st : DistState) : List Nat → ForcedScanResult
  | [] => ForcedScanResult.clear
  | i :: rest =>
    let numToFill := (cons.getD i default).num_cards - (st.result.getD i []).length
    let numLegal := (st.legal.getD i []).length
    if numToFill > 0 then
      if numToFill > numLegal then ForcedScanResult.fail
      else if numToFill = numLegal then ForcedScanResult.take i
      else forcedScanFrom cons st rest
    else forcedScanFrom cons st rest

def forcedScan (cons : List CardDistributionPlayerConstraint) (st : DistState) :
    ForcedScanResult :=
  forcedScanFrom cons st (List.range cons.length)

/-- Forced fill: push the whole pool of player `i` onto their result and
remove those cards from every pool. -/
def takeAll (numPlayers i : Nat) (st : DistState) : DistState :=
  let takenCards := st.legal.getD i []
  { result := st.result.set i ((st.result.getD i []) ++ takenCards)
    legal := (List.range numPlayers).foldl
      (fun ls j => ls.set j ((ls.getD j []).filter (fun c => c ∉ takenCards)))
      st.legal }

/-- The second scan: the first player still needing a card. -/
def chooseFirstNeedy (cons : List CardDistributionPlayerConstraint)
    (st : DistState) : Option Nat :=
  (List.range cons.length).find?
    (fun i => (cons.getD i default).num_cards - (st.result.getD i []).length > 0)

/-- Assign one card `c` to player `i` and remove it from every pool. -/
def assignCard (numPlayers i : Nat) (c : Card) (st : DistState) : DistState :=
  { result := st.result.set i ((st.result.getD i []) ++ [c])
    legal := (List.range numPlayers).foldl
      (fun ls j => ls.set j ((ls.getD j []).erase c)) st.legal }

/-- The `loop` of `_possible_card_distribution`.  Each iteration consumes one
unit of fuel; the caller passes fuel exceeding the total number of cards
still to assign, which dominates the loop's progress, so the `none` fuel
branch is unreachable from `possibleCardDistributionSingle`. -/
def distLoop (cons : List CardDistributionPlayerConstraint) (g : Nat → Nat) :
    Nat → DistState → Nat → Option (Except CardError (List (List Card)) × Nat)
  | 0, _, _ => none
  | fuel + 1, st, k =>
    match forcedScan cons st with
    | ForcedScanResult.fail => some (Except.error CardError.cannotSatisfy, k)
    | ForcedScanResult.take i => distLoop cons g fuel (takeAll cons.length i st) k
    | ForcedScanResult.clear =>
      match chooseFirstNeedy cons st with
      | none => some (Except.ok st.result, k)
      | some i =>
        match randomFromList (st.legal.getD i []) g k with
        | none => none   -- gen_range on an empty set panics (unreachable here)
        | some (c, k') => distLoop cons g fuel (assignCard cons.length i c st) k'

def distFuel (req : CardDistributionRequest) : Nat :=
  (req.constraints.map (fun cs => cs.num_cards)).sum + 1

/-- `_possible_card_distribution`: one sampling attempt. -/
def possibleCardDistributionSingle (req : CardDistributionRequest)
    (g : Nat → Nat) (k : Nat) :
    Option (Except CardError (List (List Card)) × Nat) :=
  distLoop req.constraints g (distFuel req) (initialDistState req) k

/-- The retry loop of `possible_card_distribution`. -/
def pcdLoop (req : CardDistributionRequest) (g : Nat → Nat) :
    Nat → Nat → Option (Except CardError (List (List Card)) × Nat)
  | 0, k => some (Except.error CardError.unsatisfiableAfterRetries, k)
  | n + 1, k =>
    match possibleCardDistributionSingle req g k with
    | none => none
    | some (Except.ok r, k') => some (Except.ok r, k')
    | some (Except.error _, k') => pcdLoop req g n k'

/-- `possible_card_distribution`: up to 10000 attempts. -/
def possibleCardDistribution (req : CardDistributionRequest) (g : Nat → Nat)
    (k : Nat) : Option (Except CardError (List (List Card)) × Nat) :=
  pcdLoop req g 10000 k

/-! ## Match equity (`hearts_ai.rs`) -/

def listMinInt (l : List Int) : Option Int :=
  l.foldl
    (fun acc s =>
      match acc with
      | none => some s
      | some m => some (min m s))
    none

/-- `match_equity_for_scores`; the two leading `assert!`s are modelled as
`none`, the `f64` arithmetic as exact `Rat` arithmetic. -/
def matchEquityForScores (scores : List Int) (maxScore : Nat)
    (playerIndex : Nat) : Option Rat :=
  if scores.length < 2 then none
  else if ¬playerIndex < scores.length then none
  else if scores.any (fun s => s ≥ (maxScore : Int)) then
    match listMinInt scores with
    | none => none
    | some minScore =>
      if scores.getD playerIndex 0 > minScore then some 0
      else
        -- An N-way tie for first has an equity of 1/N.
        some (1 / ((scores.countP (fun s => s = minScore) : Nat) : Rat))
  else
    -- (player distance to max) / (sum of all distances to max)
    let totalDist : Int := scores.foldl
      (fun total score => total + ((maxScore : Int) - score)) 0
    some ((((maxScore : Int) - scores.getD playerIndex 0 : Int) : Rat)
      / (totalDist : Rat))

/-! ## Card-to-play strategies (`hearts_ai.rs`) -/

structure MonteCarloParams where
  num_hands : Nat
  rollouts_per_hand : Nat
deriving DecidableEq

inductive CardToPlayStrategy where
  | Random
  | AvoidPoints
  | MixedRandomAvoidPoints (pRandom : Rat)
  | MonteCarloRandom (params : MonteCarloParams)
  | MonteCarloAvoidPoints (params : MonteCarloParams)
  | MonteCarloMixedRandomAvoidPoints (pRandom : Rat) (params : MonteCarloParams)

/-- `CardToPlayDirectRequest` (the `ChooseCardToPlayRequest` data). -/
structure CardToPlayDirectRequest where
  rules : RuleSet
  scores_before_round : List Int
  hand : List Card
  prev_tricks : List Trick
  current_trick : TrickInProgress
  pass_direction : Nat
  passed_cards : List Card
  received_cards : List Card
deriving DecidableEq

def reqLegalPlays (req : CardToPlayDirectRequest) : List Card :=
  legalPlays req.hand req.current_trick req.prev_tricks req.rules

def reqCurrentPlayerIndex (req : CardToPlayDirectRequest) : Nat :=
  (req.current_trick.leader + req.current_trick.cards.length) %
    req.rules.num_players

/-- The `ChooseCardToPlayRequest` impl for `hearts::Round`. -/
def roundToReq (r : Round) : CardToPlayDirectRequest :=
  { rules := r.rules
    scores_before_round := r.initial_scores
    hand := r.currentPlayer.hand
    prev_tricks := r.prev_tricks
    current_trick := r.current_trick
    pass_direction := r.pass_direction
    passed_cards := r.currentPlayer.passed_cards
    received_cards := r.currentPlayer.received_cards }

/-- `choose_card_random`: `legal_plays.choose(&mut rng).unwrap()`
(a uniform pick; `unwrap` panics on an empty list). -/
def chooseCardRandom (req : CardToPlayDirectRequest) (g : Nat → Nat) (k : Nat) :
    Option (Card × Nat) :=
  randomFromList (reqLegalPlays req) g k

/-- The distinct suits among the legal plays (`HashSet` of suits, modelled in
first-occurrence order). -/
def legalSuitsOf (legalPlays : List Card) : List Suit :=
  legalPlays.foldl
    (fun acc c => if c.suit ∈ acc then acc else acc ++ [c.suit]) []

/-- `choose_card_avoid_points`: the leading branch — lowest card of a
uniformly random legal suit. -/
def avoidPointsLead (lp : List Card) (g : Nat → Nat) (k : Nat) :
    Option (Card × Nat) :=
  match randomFromList (legalSuitsOf lp) g k with
  | none => none
  | some (suit, k') =>
    match (ranksForSuit lp suit).getLast? with
    | none => none
    | some lowestRank => some (⟨lowestRank, suit⟩, k')

/-- the `filter(|c| **c != QUEEN_OF_SPADES).max_by(rank).unwrap()` idiom. -/
def highestNonQS (lp : List Card) : Option Card :=
  maxByRankLast (lp.filter (fun c => c ≠ QUEEN_OF_SPADES))

/-- the `filter(|c| **c != QUEEN_OF_SPADES).min_by(rank).unwrap()` idiom. -/
def lowestNonQS (lp : List Card) : Option Card :=
  minByRankFirst (lp.filter (fun c => c ≠ QUEEN_OF_SPADES))

/-- the `highest_nonwinner` computation: highest card strictly under the
trick's current winner, never J-diamonds when the -10 rule applies. -/
def highestNonwinner (lp : List Card) (hasJD : Bool) (highCard : Card) :
    Option Card :=
  maxByRankLast (lp.filter
    (fun c => c.rank.value < highCard.rank.value ∧
      ¬(hasJD = true ∧ c = JACK_OF_DIAMONDS)))

/-- `choose_card_avoid_points`: following suit, last to play in the trick. -/
def avoidPointsLastPlay (lp : List Card) (rules : RuleSet)
    (trickCards : List Card) (highCard : Card) (hasJD : Bool) (k : Nat) :
    Option (Card × Nat) :=
  let trickPoints := pointsForCards trickCards rules
  -- Win with JD if possible (and no QS).
  if hasJD = true ∧ trickPoints < 10 ∧ highCard.rank.value < Rank.JACK.value
  then some (JACK_OF_DIAMONDS, k)
  else if trickPoints ≤ 0 then
    -- Win without taking points if possible.
    match highestNonQS lp with
    | none => none
    | some c => some (c, k)
  else
    -- Avoid taking the trick if we can; if we can't play highest.
    match highestNonwinner lp hasJD highCard with
    | some c => some (c, k)
    | none =>
      match highestNonQS lp with
      | none => none
      | some c => some (c, k)

/-- `choose_card_avoid_points`: following suit, not last to play. -/
def avoidPointsNotLastPlay (lp : List Card) (highCard : Card) (hasJD : Bool)
    (k : Nat) : Option (Card × Nat) :=
  -- Play just under the winner if possible; if we can't, play the lowest.
  match highestNonwinner lp hasJD highCard with
  | some c => some (c, k)
  | none =>
    match lowestNonQS lp with
    | none => none
    | some c => some (c, k)

/-- `choose_card_avoid_points`: the following-suit branch. -/
def avoidPointsFollowing (req : CardToPlayDirectRequest) (lp : List Card)
    (legalSuits : List Suit) (k : Nat) : Option (Card × Nat) :=
  let trick := req.current_trick
  if legalSuits.length ≠ 1 then none  -- assert!(legal_suits.len() == 1)
  else if req.prev_tricks.isEmpty ∧ ¬req.rules.points_on_first_trick then
    -- Play high on first trick if no points allowed.
    match highestNonQS lp with
    | none => none
    | some c => some (c, k)
  else
    match highestInTrick trick.cards with
    | none => none
    | some highCard =>
      let hasQS := decide (QUEEN_OF_SPADES ∈ lp)
      let hasJD := decide (req.rules.jd_minus_10 ∧ JACK_OF_DIAMONDS ∈ lp)
      if hasQS = true ∧ Rank.QUEEN.value < highCard.rank.value then
        some (QUEEN_OF_SPADES, k)  -- Dump QS if possible.
      else if trick.cards.length = req.rules.num_players - 1 then
        avoidPointsLastPlay lp req.rules trick.cards highCard hasJD k
      else avoidPointsNotLastPlay lp highCard hasJD k

/-- `choose_card_avoid_points`: the discarding branch — ditch QS, else the
highest heart, else the highest other card. -/
def avoidPointsDiscard (req : CardToPlayDirectRequest) (lp : List Card)
    (legalSuits : List Suit) (k : Nat) : Option (Card × Nat) :=
  let hasQS := decide (QUEEN_OF_SPADES ∈ lp)
  let hasJD := decide (req.rules.jd_minus_10 ∧ JACK_OF_DIAMONDS ∈ lp)
  if hasQS = true then some (QUEEN_OF_SPADES, k)
  else if Suit.Hearts ∈ legalSuits then
    match maxByRankLast (lp.filter (fun c => c.suit = Suit.Hearts)) with
    | none => none
    | some c => some (c, k)
  else
    -- Don't play JD if we want to take it.
    match maxByRankLast
      (lp.filter (fun c => ¬(hasJD = true ∧ c = JACK_OF_DIAMONDS))) with
    | none => none
    | some c => some (c, k)

/-- `choose_card_avoid_points`, assembled from the branch helpers above.
Every `unwrap`, and the two `assert!`s, are modelled as `none`. -/
def chooseCardAvoidPoints (req : CardToPlayDirectRequest) (g : Nat → Nat)
    (k : Nat) : Option (Card × Nat) :=
  let lp := reqLegalPlays req
  if lp.length = 0 then none  -- assert!(legal_plays.len() > 0)
  else if lp.length = 1 then some (lp.getD 0 default, k)
  else
    let legalSuits := legalSuitsOf lp
    let trick := req.current_trick
    if trick.cards.isEmpty then avoidPointsLead lp g k
    else
      let trickSuit := (trick.cards.headD default).suit
      if trickSuit ∈ legalSuits then avoidPointsFollowing req lp legalSuits k
      else avoidPointsDiscard req lp legalSuits k

def isNonrecursive : CardToPlayStrategy → Bool
  | CardToPlayStrategy.Random => true
  | CardToPlayStrategy.AvoidPoints => true
  | CardToPlayStrategy.MixedRandomAvoidPoints _ => true
  | _ => false

/-- The `rng.gen_range(0.0_f64..1.0_f64) < p` coin, with the `f64` draw
modelled as a 32-bit uniform rational. -/
def mixedCoinIsRandom (pRandom : Rat) (v : Nat) : Bool :=
  decide (((v % 2 ^ 32 : Nat) : Rat) / ((2 ^ 32 : Nat) : Rat) < pRandom)

/-- `choose_card_nonrecursive` (panics on a Monte Carlo strategy). -/
def chooseCardNonrecursive (req : CardToPlayDirectRequest)
    (strategy : CardToPlayStrategy) (g : Nat → Nat) (k : Nat) :
    Option (Card × Nat) :=
  match strategy with
  | CardToPlayStrategy.Random => chooseCardRandom req g k
  | CardToPlayStrategy.AvoidPoints => chooseCardAvoidPoints req g k
  | CardToPlayStrategy.MixedRandomAvoidPoints pRandom =>
    if mixedCoinIsRandom pRandom (g k) then chooseCardRandom req g (k + 1)
    else chooseCardAvoidPoints req g (k + 1)
  | _ => none  -- panic!("Invalid strategy")

/-! ## Monte Carlo engine (`hearts_ai.rs`) -/

def insertSuitSet (l : List Suit) (s : Suit) : List Suit :=
  if s ∈ l then l else l ++ [s]

/-- State threaded through `make_card_distribution_req`'s trick walk. -/
structure InferState where
  seen : List Card
  voided : List (List Suit)
  hearts_broken : Bool

/-- Body of `process_trick`'s `for i in 1..trick_cards.len()` loop. -/
def processTrickStep (numPlayers : Nat) (qb : Bool) (leader : Nat)
    (trickSuit : Suit) (st : InferState) (x : Nat × Card) : InferState :=
  let st1 := { st with seen := insertSet st.seen x.2 }
  let pi := (leader + x.1) % numPlayers
  let st2 :=
    if x.2.suit ≠ trickSuit then
      { st1 with voided :=
          st1.voided.set pi (insertSuitSet (st1.voided.getD pi []) trickSuit) }
    else st1
  if x.2.suit = Suit.Hearts ∨ (qb ∧ x.2 = QUEEN_OF_SPADES) then
    { st2 with hearts_broken := true }
  else st2

/-- The `process_trick` closure of `make_card_distribution_req`. -/
def processTrick (numPlayers : Nat) (qb : Bool) (st : InferState)
    (trickCards : List Card) (leader : Nat) : InferState :=
  let trickSuit := (trickCards.headD default).suit
  let st1 :=
    if ¬st.hearts_broken ∧ trickSuit = Suit.Hearts then
      -- Led hearts when not broken: must have been void everywhere else.
      { st with
          hearts_broken := true
          voided := st.voided.set leader
            (insertSuitSet
              (insertSuitSet
                (insertSuitSet (st.voided.getD leader []) Suit.Spades)
                Suit.Diamonds)
              Suit.Clubs) }
    else st
  let st2 := { st1 with seen := insertSet st1.seen (trickCards.headD default) }
  ((trickCards.enum).drop 1).foldl
    (processTrickStep numPlayers qb leader trickSuit) st2

/-- The remaining hand sizes computed by `make_card_distribution_req`
(`usize` subtraction is modelled as truncated `Nat` subtraction; in any state
reachable by play the subtraction never underflows). -/
def mcCounts (req : CardToPlayDirectRequest) (numPlayers : Nat) : List Nat :=
  let baseCount := 13 - req.prev_tricks.length
  let counts0 := List.replicate numPlayers baseCount
  let counts1 := (List.range req.current_trick.cards.length).foldl
    (fun cs i =>
      let pi := (req.current_trick.leader + i) % numPlayers
      cs.set pi (cs.getD pi 0 - 1))
    counts0
  counts1.set (reqCurrentPlayerIndex req) 0

def makeCardDistributionReq (req : CardToPlayDirectRequest) :
    CardDistributionRequest :=
  let numPlayers := req.rules.num_players
  let qb := req.rules.queen_breaks_hearts
  let st0 : InferState :=
    { seen := req.hand.foldl insertSet []
      voided := List.replicate numPlayers []
      hearts_broken := false }
  let st1 := req.prev_tricks.foldl
    (fun st t => processTrick numPlayers qb st t.cards t.leader) st0
  let st2 :=
    if ¬req.current_trick.cards.isEmpty then
      processTrick numPlayers qb st1 req.current_trick.cards
        req.current_trick.leader
    else st1
  let cardsToAssign := allCards.filter
    (fun c => c ∉ req.rules.removed_cards ∧ c ∉ st2.seen)
  let counts := mcCounts req numPlayers
  let constraints0 := (List.range numPlayers).map
    (fun i =>
      { num_cards := counts.getD i 0
        voided_suits := st2.voided.getD i []
        fixed_cards := [] : CardDistributionPlayerConstraint })
  let constraints :=
    if req.passed_cards.length > 0 then
      let passedTo :=
        (reqCurrentPlayerIndex req + req.pass_direction) % numPlayers
      constraints0.set passedTo
        { constraints0.getD passedTo default with
            fixed_cards := req.passed_cards.foldl insertSet [] }
    else constraints0
  { cards := cardsToAssign, constraints := constraints }

/-- `possible_round`: sample a distribution and build the hypothetical round
(`some (none, _)` is the sampler-failed case the engine recovers from). -/
def possibleRound (ccReq : CardToPlayDirectRequest)
    (distReq : CardDistributionRequest) (g : Nat → Nat) (k : Nat) :
    Option (Option Round × Nat) :=
  match possibleCardDistribution distReq g k with
  | none => none
  | some (Except.error _, k') => some (none, k')
  | some (Except.ok dist, k') =>
    let curPlayer := reqCurrentPlayerIndex ccReq
    let resultPlayers := (List.range ccReq.rules.num_players).map
      (fun i => Player.new (if i = curPlayer then ccReq.hand else dist.getD i []))
    some (some
      { rules := ccReq.rules
        players := resultPlayers
        initial_scores := ccReq.scores_before_round
        current_trick := ccReq.current_trick
        prev_tricks := ccReq.prev_tricks
        status := RoundStatus.Playing
        -- Ignore passed cards.
        pass_direction := 0
        num_passed_cards := 0 }, k')

def getCardToPlay (r : Round) (strategy : CardToPlayStrategy) (g : Nat → Nat)
    (k : Nat) : Option (Card × Nat) :=
  chooseCardNonrecursive (roundToReq r) strategy g k

/-- Fuel dominating `do_rollout`'s `while !round.is_over()` loop: every
iteration plays a card out of some hand. -/
def rolloutFuel (r : Round) : Nat :=
  (r.players.map (fun p => p.hand.length)).sum + 1

/-- `do_rollout` (the play result is discarded by the source as well). -/
def doRollout (strategy : CardToPlayStrategy) (g : Nat → Nat) :
    Nat → Round → Nat → Option (Round × Nat)
  | 0, _, _ => none
  | fuel + 1, r, k =>
    if r.isOver then some (r, k)
    else if r.legalPlaysR.length = 0 then none  -- assert!(legal_plays.len() > 0)
    else
      match getCardToPlay r strategy g k with
      | none => none
      | some (cardToPlay, k') =>
        doRollout strategy g fuel (r.playCard cardToPlay).2 k'

/-- `scores_after_round`: add the round's points onto the pre-round scores. -/
def addScores (scoresBefore roundPoints : List Int) (numPlayers : Nat) :
    List Int :=
  (List.range numPlayers).foldl
    (fun s p => s.set p (s.getD p 0 + roundPoints.getD p 0)) scoresBefore

/-- The `for _r in 0..rollouts_per_hand` loop for one candidate play; the
per-rollout equities are summed locally (the source adds each one onto
`equity_per_play[ci]`, which accumulates to the same sum). -/
def rolloutsLoop (req : CardToPlayDirectRequest)
    (rolloutStrategy : CardToPlayStrategy) (g : Nat → Nat) (hypoCopy : Round)
    (pnum : Nat) : Nat → Rat → Nat → Option (Rat × Nat)
  | 0, acc, k => some (acc, k)
  | nr + 1, acc, k =>
    match doRollout rolloutStrategy g (rolloutFuel hypoCopy) hypoCopy k with
    | none => none
    | some (rh, k') =>
      let roundPoints := rh.pointsTaken
      let scoresAfterRound :=
        addScores req.scores_before_round roundPoints req.rules.num_players
      match matchEquityForScores scoresAfterRound req.rules.point_limit pnum with
      | none => none
      | some eq =>
        rolloutsLoop req rolloutStrategy g hypoCopy pnum nr (acc + eq) k'

/-- The `for ci in 0..legal_plays.len()` loop of one sampled hand. -/
def perPlayLoop (req : CardToPlayDirectRequest)
    (rolloutStrategy : CardToPlayStrategy) (g : Nat → Nat) (lp : List Card)
    (hypoRound : Round) (rollouts pnum : Nat) :
    List Nat → List Rat → Nat → Option (List Rat × Nat)
  | [], eqs, k => some (eqs, k)
  | ci :: rest, eqs, k =>
    let hypoCopy := (hypoRound.playCard (lp.getD ci default)).2
    match rolloutsLoop req rolloutStrategy g hypoCopy pnum rollouts 0 k with
    | none => none
    | some (delta, k') =>
      perPlayLoop req rolloutStrategy g lp hypoRound rollouts pnum rest
        (eqs.set ci (eqs.getD ci 0 + delta)) k'

/-- The `for _s in 0..mc_params.num_hands` loop.  `Except.error` carries the
result of the `choose_card_avoid_points` fallback taken when sampling a
hypothetical round fails. -/
def mcHands (req : CardToPlayDirectRequest)
    (rolloutStrategy : CardToPlayStrategy) (g : Nat → Nat) (lp : List Card)
    (distReq : CardDistributionRequest) (rollouts pnum : Nat) :
    Nat → List Rat → Nat → Option (Except (Card × Nat) (List Rat × Nat))
  | 0, eqs, k => some (Except.ok (eqs, k))
  | n + 1, eqs, k =>
    match possibleRound req distReq g k with
    | none => none
    | some (none, k') =>
      -- "MC failed, defaulting to choose_card_avoid_points"
      match chooseCardAvoidPoints req g k' with
      | none => none
      | some ck => some (Except.error ck)
    | some (some hypoRound, k') =>
      match perPlayLoop req rolloutStrategy g lp hypoRound rollouts pnum
        (List.range lp.length) eqs k' with
      | none => none
      | some (eqs', k'') =>
        mcHands req rolloutStrategy g lp distReq rollouts pnum n eqs' k''

/-- `max_index`: first index attaining the maximum. -/
def maxIndex (vals : List Rat) : Nat :=
  ((vals.enum).foldl
    (fun best x => if best.2 < x.2 then (x.1, x.2) else best)
    (0, vals.getD 0 0)).1

def chooseCardMonteCarlo (req : CardToPlayDirectRequest)
    (mcParams : MonteCarloParams) (rolloutStrategy : CardToPlayStrategy)
    (g : Nat → Nat) (k : Nat) : Option (Card × Nat) :=
  let lp := reqLegalPlays req
  if lp.length = 0 then none  -- assert!(legal_plays.len() > 0)
  else if lp.length = 1 then some (lp.getD 0 default, k)
  else
    let pnum := reqCurrentPlayerIndex req
    let distReq := makeCardDistributionReq req
    match mcHands req rolloutStrategy g lp distReq mcParams.rollouts_per_hand
      pnum mcParams.num_hands (List.replicate lp.length 0) k with
    | none => none
    | some (Except.error ck) => some ck
    | some (Except.ok (eqs, k')) => some (lp.getD (maxIndex eqs) default, k')

/-- `choose_card`. -/
def chooseCard (req : CardToPlayDirectRequest)
    (strategy : CardToPlayStrategy) (g : Nat → Nat) (k : Nat) :
    Option (Card × Nat) :=
  if isNonrecursive strategy then chooseCardNonrecursive req strategy g k
  else
    match strategy with
    | CardToPlayStrategy.MonteCarloRandom mcParams =>
      chooseCardMonteCarlo req mcParams CardToPlayStrategy.Random g k
    | CardToPlayStrategy.MonteCarloAvoidPoints mcParams =>
      chooseCardMonteCarlo req mcParams CardToPlayStrategy.AvoidPoints g k
    | CardToPlayStrategy.MonteCarloMixedRandomAvoidPoints pRand mcParams =>
      chooseCardMonteCarlo req mcParams
        (CardToPlayStrategy.MixedRandomAvoidPoints pRand) g k
    | _ => none  -- panic!("Unknown strategy") (unreachable)

/-! ## Concrete instances used by witnesses and counterexamples -/

/-- The moon-shoot scenario of the spec (and of `test_shooting_points`):
player 1 takes every point trick, including Q-spades and J-diamonds. -/
def moonShootTricks : List Trick :=
  [⟨0, [⟨⟨2⟩, Suit.Clubs⟩, ⟨⟨14⟩, Suit.Clubs⟩, ⟨⟨13⟩, Suit.Clubs⟩,
        ⟨⟨12⟩, Suit.Clubs⟩], 1⟩,
   ⟨1, [⟨⟨14⟩, Suit.Diamonds⟩, ⟨⟨12⟩, Suit.Spades⟩, ⟨⟨11⟩, Suit.Diamonds⟩,
        ⟨⟨11⟩, Suit.Hearts⟩], 1⟩,
   ⟨1, [⟨⟨14⟩, Suit.Hearts⟩, ⟨⟨2⟩, Suit.Hearts⟩, ⟨⟨3⟩, Suit.Hearts⟩,
        ⟨⟨4⟩, Suit.Hearts⟩], 1⟩,
   ⟨1, [⟨⟨13⟩, Suit.Hearts⟩, ⟨⟨5⟩, Suit.Hearts⟩, ⟨⟨6⟩, Suit.Hearts⟩,
        ⟨⟨7⟩, Suit.Hearts⟩], 1⟩,
   ⟨1, [⟨⟨12⟩, Suit.Hearts⟩, ⟨⟨8⟩, Suit.Hearts⟩, ⟨⟨9⟩, Suit.Hearts⟩,
        ⟨⟨10⟩, Suit.Hearts⟩], 1⟩]

/-- A small in-play round: four players, one card each, player 0 to lead. -/
def sampleRound : Round :=
  { rules := defaultRules
    players := [Player.new [TWO_OF_CLUBS], Player.new [⟨⟨3⟩, Suit.Clubs⟩],
                Player.new [⟨⟨4⟩, Suit.Clubs⟩], Player.new [⟨⟨5⟩, Suit.Clubs⟩]]
    initial_scores := [0, 0, 0, 0]
    pass_direction := 0
    num_passed_cards := 0
    status := RoundStatus.Playing
    current_trick := TrickInProgress.new 0
    prev_tricks := [] }

/-- A passing-phase round where every player passes their whole 3-card hand
to the left. -/
def samplePassingRound : Round :=
  { rules := defaultRules
    players := [
      { hand := [⟨⟨2⟩, Suit.Clubs⟩, ⟨⟨3⟩, Suit.Clubs⟩, ⟨⟨4⟩, Suit.Clubs⟩]
        passed_cards := [⟨⟨2⟩, Suit.Clubs⟩, ⟨⟨3⟩, Suit.Clubs⟩, ⟨⟨4⟩, Suit.Clubs⟩]
        received_cards := [] },
      { hand := [⟨⟨5⟩, Suit.Clubs⟩, ⟨⟨6⟩, Suit.Clubs⟩, ⟨⟨7⟩, Suit.Clubs⟩]
        passed_cards := [⟨⟨5⟩, Suit.Clubs⟩, ⟨⟨6⟩, Suit.Clubs⟩, ⟨⟨7⟩, Suit.Clubs⟩]
        received_cards := [] },
      { hand := [⟨⟨8⟩, Suit.Clubs⟩, ⟨⟨9⟩, Suit.Clubs⟩, ⟨⟨10⟩, Suit.Clubs⟩]
        passed_cards := [⟨⟨8⟩, Suit.Clubs⟩, ⟨⟨9⟩, Suit.Clubs⟩, ⟨⟨10⟩, Suit.Clubs⟩]
        received_cards := [] },
      { hand := [⟨⟨11⟩, Suit.Clubs⟩, ⟨⟨12⟩, Suit.Clubs⟩, ⟨⟨13⟩, Suit.Clubs⟩]
        passed_cards := [⟨⟨11⟩, Suit.Clubs⟩, ⟨⟨12⟩, Suit.Clubs⟩,
                         ⟨⟨13⟩, Suit.Clubs⟩]
        received_cards := [] }]
    initial_scores := [0, 0, 0, 0]
    pass_direction := 1
    num_passed_cards := 3
    status := RoundStatus.Passing
    current_trick := TrickInProgress.new 0
    prev_tricks := [] }

/-- Distribution request on which the sampler can leave a fixed card
undelivered: player 0 wants one card and has 2-hearts fixed, player 1 wants
none, and the card total is not tight. -/
def fixedCounterReq : CardDistributionRequest :=
  { cards := [⟨⟨2⟩, Suit.Hearts⟩, ⟨⟨3⟩, Suit.Clubs⟩]
    constraints :=
      [⟨1, [], [⟨⟨2⟩, Suit.Hearts⟩]⟩, ⟨0, [], []⟩] }

/-- A tight distribution request (card total equals the sum of needs). -/
def tightReq : CardDistributionRequest :=
  { cards := [⟨⟨2⟩, Suit.Hearts⟩, ⟨⟨3⟩, Suit.Clubs⟩]
    constraints :=
      [⟨1, [], [⟨⟨2⟩, Suit.Hearts⟩]⟩, ⟨1, [], []⟩] }

/-- RNG cursor sitting before attempt `j` of the retry loop of
`possible_card_distribution` (attempt 0 starts at `k`; each later attempt
starts where the previous one stopped). -/
def attemptPos (req : CardDistributionRequest) (g : Nat → Nat) (k : Nat) :
    Nat → Nat
  | 0 => k
  | j + 1 =>
    match possibleCardDistributionSingle req g (attemptPos req g k j) with
    | some (_, k') => k'
    | none => attemptPos req g k j

/-- A decision context whose hidden-hand inference is unsatisfiable: all 52
cards are removed by the rules, so no sampled deal can cover the other
players' 12, 13 and 13 missing cards. -/
def mcFailReq : CardToPlayDirectRequest :=
  { rules := { defaultRules with removed_cards := allCards }
    scores_before_round := [0, 0, 0, 0]
    hand := [⟨⟨3⟩, Suit.Clubs⟩, ⟨⟨4⟩, Suit.Clubs⟩]
    prev_tricks := []
    current_trick := ⟨0, [⟨⟨5⟩, Suit.Clubs⟩]⟩
    pass_direction := 0
    passed_cards := []
    received_cards := [] }

/-- The invariant maintained by the sampler's main loop. -/
structure DistInv (req : CardDistributionRequest) (st : DistState) : Prop where
  reslen : st.result.length = req.constraints.length
  leglen : st.legal.length = req.constraints.length
  resle : ∀ i, i < req.constraints.length →
    (st.result.getD i []).length ≤ (req.constraints.getD i default).num_cards
  legsub : ∀ i, ∀ c ∈ st.legal.getD i [], c ∈ initialLegalPool req i
  rescards : ∀ i, i < req.constraints.length → ∀ c ∈ st.result.getD i [],
    c ∈ initialLegalPool req i
  resnodup : ∀ i, (st.result.getD i []).Nodup
  disj : ∀ i j, i ≠ j → ∀ c ∈ st.result.getD i [], c ∉ st.result.getD j []
  legres : ∀ i j, ∀ c ∈ st.legal.getD i [], c ∉ st.result.getD j []
  legnodup : ∀ i, (st.legal.getD i []).Nodup

/-! ## Shared helper lemmas -/

/-- Folding index-wise `set` updates never changes the length. -/
theorem foldl_set_length {α β : Type} (idx : β → Nat) (upd : List α → β → α) :
    ∀ (bs : List β) (l : List α),
      (bs.foldl (fun acc b => acc.set (idx b) (upd acc b)) l).length = l.length := by
  intro bs
  induction bs with
  | nil => intro l; rfl
  | cons b rest ih =>
    intro l
    rw [List.foldl_cons, ih, List.length_set]

theorem getD_set_int {l : List Int} {i j : Nat} {a : Int} :
    (l.set i a).getD j 0 =
      if i = j ∧ i < l.length then a else l.getD j 0 := by
  rw [List.getD_eq_getElem?_getD, List.getD_eq_getElem?_getD, List.getElem?_set]
  by_cases hij : i = j
  · subst hij
    by_cases hlen : i < l.length
    · simp [hlen]
    · simp only [hlen, if_neg, if_false, and_true, if_true]
      rw [List.getElem?_eq_none (by omega)]
      simp [hlen]
  · simp [hij]

theorem find?_range'_eq_some {p : Nat → Bool} :
    ∀ (len start s : Nat), start ≤ s → s < start + len → p s = true →
      (∀ j, start ≤ j → j < s → p j = false) →
      (List.range' start len).find? p = some s := by
  intro len
  induction len with
  | zero => intro start s h1 h2; omega
  | succ n ih =>
    intro start s h1 h2 hp hfirst
    rw [List.range'_succ, List.find?_cons]
    rcases Nat.eq_or_lt_of_le h1 with rfl | hlt
    · rw [hp]
    · rw [hfirst start (Nat.le_refl _) hlt]
      exact ih (start + 1) s hlt (by omega) hp
        (fun j hj1 hj2 => hfirst j (by omega) hj2)

theorem find?_range_eq_some {n : Nat} {p : Nat → Bool} {s : Nat}
    (hs : s < n) (hp : p s = true) (hfirst : ∀ j < s, p j = false) :
    (List.range n).find? p = some s := by
  rw [List.range_eq_range']
  exact find?_range'_eq_some n 0 s (Nat.zero_le _) (by omega) hp
    (fun j _ hj => hfirst j hj)

/-- Evaluating the fold that adds `g p` to every entry `p < n`. -/
theorem foldl_range_add_getD (g : Nat → Int) :
    ∀ (n : Nat) (l : List Int) (j : Nat), j < l.length →
      ((List.range n).foldl
        (fun pts p => pts.set p (pts.getD p 0 + g p)) l).getD j 0 =
        l.getD j 0 + (if j < n then g j else 0) := by
  intro n
  induction n with
  | zero => intro l j hj; simp
  | succ m ih =>
    intro l j hj
    rw [List.range_succ, List.foldl_append, List.foldl_cons, List.foldl_nil]
    have hlen : ((List.range m).foldl
        (fun pts p => pts.set p (pts.getD p 0 + g p)) l).length = l.length :=
      foldl_set_length (fun p => p) (fun acc p => acc.getD p 0 + g p) _ l
    rw [getD_set_int]
    by_cases hjm : j = m
    · subst hjm
      rw [if_pos ⟨rfl, by omega⟩, ih l j hj, if_neg (by omega), if_pos (by omega)]
      omega
    · rw [if_neg (by intro hc; exact hjm hc.1.symm), ih l j hj]
      by_cases hj1 : j < m
      · rw [if_pos hj1, if_pos (by omega)]
      · rw [if_neg hj1, if_neg (by omega)]

theorem getD_mem {α : Type} (l : List α) (n : Nat) (d : α) (h : n < l.length) :
    l.getD n d ∈ l := by
  rw [List.getD_eq_getElem?_getD, List.getElem?_eq_getElem h]
  exact List.getElem_mem h

theorem mem_of_getLast?_eq_some {α : Type} {l : List α} {a : α}
    (h : l.getLast? = some a) : a ∈ l := by
  cases l with
  | nil => simp at h
  | cons x xs =>
    rw [List.getLast?_eq_getLast (x :: xs) (by simp)] at h
    injection h with h'
    rw [← h']
    exact List.getLast_mem _

/-- A left fold whose step either keeps the accumulator or replaces it by the
current element only ever produces an element of the list. -/
theorem foldl_pick_mem {α : Type} (f : Option α → α → Option α)
    (hf : ∀ acc c, f acc c = some c ∨ f acc c = acc) :
    ∀ (l : List α) (acc : Option α) (c : α),
      l.foldl f acc = some c → c ∈ l ∨ acc = some c := by
  intro l
  induction l with
  | nil => intro acc c h; exact Or.inr h
  | cons x xs ih =>
    intro acc c h
    rw [List.foldl_cons] at h
    rcases ih (f acc x) c h with h1 | h1
    · exact Or.inl (List.mem_cons_of_mem _ h1)
    · rcases hf acc x with h2 | h2
      · rw [h2] at h1
        injection h1 with h3
        exact Or.inl (by rw [h3]; exact List.mem_cons_self _ _)
      · rw [h2] at h1
        exact Or.inr h1

theorem maxByRankLast_mem {l : List Card} {c : Card}
    (h : maxByRankLast l = some c) : c ∈ l := by
  rcases foldl_pick_mem _ (fun acc c => by
      cases acc with
      | none => exact Or.inl rfl
      | some m =>
        by_cases hle : m.rank.value ≤ c.rank.value
        · exact Or.inl (by simp [hle])
        · exact Or.inr (by simp [hle])) l none c h with h1 | h1
  · exact h1
  · simp at h1

theorem minByRankFirst_mem {l : List Card} {c : Card}
    (h : minByRankFirst l = some c) : c ∈ l := by
  rcases foldl_pick_mem _ (fun acc c => by
      cases acc with
      | none => exact Or.inl rfl
      | some m =>
        by_cases hlt : c.rank.value < m.rank.value
        · exact Or.inl (by simp [hlt])
        · exact Or.inr (by simp [hlt])) l none c h with h1 | h1
  · exact h1
  · simp at h1

theorem mem_legalSuitsOf_aux (lp : List Card) :
    ∀ (init : List Suit) (s : Suit),
      (s ∈ lp.foldl
        (fun acc c => if c.suit ∈ acc then acc else acc ++ [c.suit]) init ↔
        s ∈ init ∨ ∃ c ∈ lp, c.suit = s) := by
  induction lp with
  | nil => intro init s; simp
  | cons x xs ih =>
    intro init s
    rw [List.foldl_cons, ih]
    by_cases hx : x.suit ∈ init
    · simp only [if_pos hx]
      constructor
      · rintro (h | h)
        · exact Or.inl h
        · exact Or.inr (by obtain ⟨c, hc, hcs⟩ := h; exact ⟨c, by simp [hc], hcs⟩)
      · rintro (h | ⟨c, hc, hcs⟩)
        · exact Or.inl h
        · rcases List.mem_cons.mp hc with rfl | hc'
          · exact Or.inl (hcs ▸ hx)
          · exact Or.inr ⟨c, hc', hcs⟩
    · simp only [if_neg hx, List.mem_append, List.mem_singleton]
      constructor
      · rintro ((h | h) | h)
        · exact Or.inl h
        · exact Or.inr ⟨x, by simp, h.symm⟩
        · obtain ⟨c, hc, hcs⟩ := h; exact Or.inr ⟨c, by simp [hc], hcs⟩
      · rintro (h | ⟨c, hc, hcs⟩)
        · exact Or.inl (Or.inl h)
        · rcases List.mem_cons.mp hc with rfl | hc'
          · exact Or.inl (Or.inr hcs.symm)
          · exact Or.inr ⟨c, hc', hcs⟩

theorem mem_legalSuitsOf {lp : List Card} {s : Suit} :
    s ∈ legalSuitsOf lp ↔ ∃ c ∈ lp, c.suit = s := by
  unfold legalSuitsOf
  rw [mem_legalSuitsOf_aux]
  simp

theorem mem_insertRankDesc {x r : Rank} {l : List Rank} :
    x ∈ insertRankDesc r l ↔ x = r ∨ x ∈ l := by
  induction l with
  | nil => simp [insertRankDesc]
  | cons y ys ih =>
    unfold insertRankDesc
    by_cases hlt : y.value < r.value
    · simp [hlt]
    · simp only [if_neg hlt, List.mem_cons, ih]
      tauto

theorem mem_sortRanksDesc {x : Rank} {l : List Rank} :
    x ∈ sortRanksDesc l ↔ x ∈ l := by
  unfold sortRanksDesc
  induction l with
  | nil => simp
  | cons y ys ih =>
    rw [List.foldr_cons, mem_insertRankDesc, ih]
    simp

theorem mem_of_mem_ranksForSuit {cards : List Card} {suit : Suit} {r : Rank}
    (h : r ∈ ranksForSuit cards suit) : (⟨r, suit⟩ : Card) ∈ cards := by
  unfold ranksForSuit at h
  rw [mem_sortRanksDesc, List.mem_map] at h
  obtain ⟨c, hc, hr⟩ := h
  rw [List.mem_filter] at hc
  obtain ⟨hmem, hsuit⟩ := hc
  have : c = ⟨r, suit⟩ := by
    cases c
    simp only [decide_eq_true_eq] at hsuit
    simp_all
  exact this ▸ hmem

theorem randomFromList_mem {α : Type} {l : List α} {g : Nat → Nat} {k : Nat}
    {a : α} {k' : Nat} (h : randomFromList l g k = some (a, k')) : a ∈ l := by
  unfold randomFromList at h
  split at h
  · exact absurd h (by simp)
  · injection h with h'
    have := congrArg Prod.fst h'
    simp only at this
    exact this ▸ List.get_mem _ _ _

theorem basePoints_length (tricks : List Trick) (rules : RuleSet) :
    (basePoints tricks rules).length = rules.num_players := by
  unfold basePoints
  rw [foldl_set_length (fun t : Trick => t.winner)
    (fun acc t => acc.getD t.winner 0 + pointsForCards t.cards rules)]
  exact List.length_replicate _ _

theorem addJDBack_length (points : List Int) :
    ∀ tricks : List Trick, (addJDBack points tricks).length = points.length := by
  intro tricks
  induction tricks with
  | nil => rfl
  | cons t rest ih =>
    unfold addJDBack
    split
    · exact List.length_set _ _ _
    · exact ih

theorem pointsWithoutJD_length (tricks : List Trick) (rules : RuleSet) :
    (pointsWithoutJD tricks rules).length = rules.num_players := by
  unfold pointsWithoutJD
  split
  · rw [addJDBack_length]; exact basePoints_length tricks rules
  · exact basePoints_length tricks rules

theorem moonShooter_eq_findShooter (tricks : List Trick) (rules : RuleSet) :
    moonShooter tricks (basePoints tricks rules) rules =
      findShooter (pointsWithoutJD tricks rules) := by
  unfold moonShooter pointsWithoutJD
  split <;> rfl

theorem getD_eq_get {α : Type} (l : List α) (n : Nat) (d : α)
    (h : n < l.length) : l.getD n d = l.get ⟨n, h⟩ := by
  rw [List.getD_eq_getElem?_getD, List.getElem?_eq_getElem h]
  rfl

theorem listMinInt_go (l : List Int) :
    ∀ m0 : Int,
      ∃ m, l.foldl
          (fun acc s =>
            match acc with
            | none => some s
            | some m => some (min m s)) (some m0) = some m ∧
        (m = m0 ∨ m ∈ l) ∧ m ≤ m0 ∧ ∀ s ∈ l, m ≤ s := by
  induction l with
  | nil => intro m0; exact ⟨m0, rfl, Or.inl rfl, le_refl _, by simp⟩
  | cons x xs ih =>
    intro m0
    obtain ⟨m, hfold, hmem, hle, hall⟩ := ih (min m0 x)
    refine ⟨m, by rw [List.foldl_cons]; exact hfold, ?_, ?_, ?_⟩
    · rcases hmem with hm | hm
      · rcases min_choice m0 x with hc | hc
        · exact Or.inl (by rw [hm, hc])
        · exact Or.inr (by rw [hm, hc]; exact List.mem_cons_self _ _)
      · exact Or.inr (List.mem_cons_of_mem _ hm)
    · exact le_trans hle (min_le_left _ _)
    · intro s hs
      rcases List.mem_cons.mp hs with rfl | hs'
      · exact le_trans hle (min_le_right _ _)
      · exact hall s hs'

theorem listMinInt_spec (l : List Int) (hne : l ≠ []) :
    ∃ m, listMinInt l = some m ∧ m ∈ l ∧ ∀ s ∈ l, m ≤ s := by
  cases l with
  | nil => exact absurd rfl hne
  | cons x xs =>
    obtain ⟨m, hfold, hmem, hle, hall⟩ := listMinInt_go xs x
    refine ⟨m, ?_, ?_, ?_⟩
    · unfold listMinInt
      rw [List.foldl_cons]
      exact hfold
    · rcases hmem with rfl | hm
      · exact List.mem_cons_self _ _
      · exact List.mem_cons_of_mem _ hm
    · intro s hs
      rcases List.mem_cons.mp hs with rfl | hs'
      · exact hle
      · exact hall s hs'

theorem foldl_add_sub (L : Int) (l : List Int) :
    ∀ init : Int,
      l.foldl (fun total score => total + (L - score)) init =
        init + (l.map (fun s => L - s)).sum := by
  induction l with
  | nil => intro init; simp
  | cons x xs ih =>
    intro init
    rw [List.foldl_cons, ih, List.map_cons, List.sum_cons]
    ring

theorem sum_map_split (f : Int → Int) (l : List Int) :
    ∀ (j : Nat), j < l.length →
      (l.map f).sum = f (l.getD j 0) + ((l.eraseIdx j).map f).sum := by
  induction l with
  | nil => intro j hj; simp at hj
  | cons x xs ih =>
    intro j hj
    cases j with
    | zero => simp [List.eraseIdx]
    | succ m =>
      have hm : m < xs.length := by simpa using hj
      rw [List.map_cons, List.sum_cons]
      have : (x :: xs).eraseIdx (m + 1) = x :: xs.eraseIdx m := rfl
      rw [this, List.map_cons, List.sum_cons, ih m hm]
      have : ((x :: xs).getD (m + 1) 0) = xs.getD m 0 := rfl
      rw [this]
      ring

theorem sum_map_set (f : Int → Int) (l : List Int) :
    ∀ (j : Nat) (v : Int), j < l.length →
      ((l.set j v).map f).sum = (l.map f).sum - f (l.getD j 0) + f v := by
  induction l with
  | nil => intro j v hj; simp at hj
  | cons x xs ih =>
    intro j v hj
    cases j with
    | zero => simp [List.set]; ring
    | succ m =>
      have hm : m < xs.length := by simpa using hj
      have : (x :: xs).set (m + 1) v = x :: xs.set m v := rfl
      rw [this, List.map_cons, List.sum_cons, List.map_cons, List.sum_cons,
        ih m v hm]
      have : ((x :: xs).getD (m + 1) 0) = xs.getD m 0 := rfl
      rw [this]
      ring

theorem sum_pos_of_all_pos (l : List Int) (hpos : ∀ x ∈ l, 0 < x)
    (hne : l ≠ []) : 0 < l.sum := by
  cases l with
  | nil => exact absurd rfl hne
  | cons x xs =>
    rw [List.sum_cons]
    have h0 : 0 ≤ xs.sum := by
      clear hne
      have hpos' : ∀ x ∈ xs, 0 < x := fun y hy =>
        hpos y (List.mem_cons_of_mem _ hy)
      clear hpos
      induction xs with
      | nil => simp
      | cons y ys ih =>
        rw [List.sum_cons]
        have := hpos' y (List.mem_cons_self _ _)
        have := ih (fun z hz => hpos' z (List.mem_cons_of_mem _ hz))
        omega
    have := hpos x (List.mem_cons_self _ _)
    omega

theorem getD_set_any {α : Type} {l : List α} {i j : Nat} {a d : α} :
    (l.set i a).getD j d =
      if i = j ∧ i < l.length then a else l.getD j d := by
  rw [List.getD_eq_getElem?_getD, List.getD_eq_getElem?_getD, List.getElem?_set]
  by_cases hij : i = j
  · subst hij
    by_cases hlen : i < l.length
    · simp [hlen]
    · simp only [hlen, if_neg, if_false, and_true, if_true]
      rw [List.getElem?_eq_none (by omega)]
      simp [hlen]
  · simp [hij]

theorem indexOf?_eq_none_iff_not_mem {α : Type} [DecidableEq α] {l : List α}
    {a : α} : l.indexOf? a = none ↔ a ∉ l := by
  rw [List.indexOf?_eq_none_iff]
  constructor
  · intro h ha
    exact (by simpa using h a ha)
  · intro h x hx hxa
    have : x = a := by simpa using hxa
    exact h (this ▸ hx)

theorem indexOf?_some_eraseIdx {α : Type} [DecidableEq α] {l : List α} {a : α} :
    ∀ {i : Nat}, l.indexOf? a = some i →
      i < l.length ∧ l.eraseIdx i = l.erase a := by
  induction l with
  | nil => intro i h; simp at h
  | cons x xs ih =>
    intro i h
    rw [List.indexOf?_cons] at h
    by_cases hx : x = a
    · rw [if_pos (by simpa [hx])] at h
      injection h with h'
      subst h'
      refine ⟨by simp, ?_⟩
      rw [List.erase_cons, if_pos (by simpa [hx])]
      rfl
    · rw [if_neg (by simpa [hx])] at h
      rw [Option.map_eq_some'] at h
      obtain ⟨j, hj, rfl⟩ := h
      obtain ⟨hjlen, hjerase⟩ := ih hj
      refine ⟨by simpa using hjlen, ?_⟩
      rw [List.erase_cons, if_neg (by simpa using hx)]
      show x :: xs.eraseIdx j = x :: xs.erase a
      rw [hjerase]

theorem length_filter_split {α : Type} (p : α → Bool) :
    ∀ l : List α,
      (l.filter p).length + (l.filter (fun c => ¬p c)).length = l.length := by
  intro l
  induction l with
  | nil => rfl
  | cons x xs ih =>
    by_cases hx : p x
    · rw [List.filter_cons_of_pos hx,
        List.filter_cons_of_neg (by simpa using hx)]
      simp only [List.length_cons]
      omega
    · rw [List.filter_cons_of_neg (by simpa using hx),
        List.filter_cons_of_pos (by simpa using hx)]
      simp only [List.length_cons]
      omega

/-- Removing a duplicate-free sub-hand from a duplicate-free hand removes
exactly its length. -/
theorem length_filter_not_mem (hand passed : List Card)
    (hhand : hand.Nodup) (hpassed : passed.Nodup)
    (hsub : ∀ c ∈ passed, c ∈ hand) :
    passed.length ≤ hand.length ∧
    (hand.filter (fun c => c ∉ passed)).length =
      hand.length - passed.length := by
  have hperm : (hand.filter (fun c => c ∈ passed)).Perm passed := by
    rw [List.perm_ext_iff_of_nodup (hhand.filter _) hpassed]
    intro a
    rw [List.mem_filter]
    constructor
    · intro h
      simpa using h.2
    · intro h
      exact ⟨hsub a h, by simpa using h⟩
  have hin : (hand.filter (fun c => c ∈ passed)).length = passed.length :=
    hperm.length_eq
  have hsplit := length_filter_split (fun c => decide (c ∈ passed)) hand
  constructor
  · omega
  · have : (hand.filter (fun c => c ∉ passed)) =
        (hand.filter (fun c => ¬(decide (c ∈ passed) : Bool))) := by
      simp
    rw [this]
    omega

/-- Sources are delivered to pairwise distinct destinations. -/
theorem pass_dest_injective {n dir i j : Nat} (hpos : 0 < n)
    (hi : i < n) (hj : j < n) (heq : (i + dir) % n = (j + dir) % n) :
    i = j := by
  have h1 : (i + dir) % n = (i % n + dir % n) % n := Nat.add_mod _ _ _
  have h2 : (j + dir) % n = (j % n + dir % n) % n := Nat.add_mod _ _ _
  rw [Nat.mod_eq_of_lt hi] at h1
  rw [Nat.mod_eq_of_lt hj] at h2
  have hd : dir % n < n := Nat.mod_lt _ hpos
  by_cases hcase : i + dir % n < n
  · by_cases hcase2 : j + dir % n < n
    · rw [h1, h2, Nat.mod_eq_of_lt hcase, Nat.mod_eq_of_lt hcase2] at heq
      omega
    · rw [h1, h2, Nat.mod_eq_of_lt hcase] at heq
      have : (j + dir % n) % n = j + dir % n - n := by
        rw [Nat.mod_eq_sub_mod (by omega), Nat.mod_eq_of_lt (by omega)]
      omega
  · by_cases hcase2 : j + dir % n < n
    · rw [h1, h2, Nat.mod_eq_of_lt hcase2] at heq
      have : (i + dir % n) % n = i + dir % n - n := by
        rw [Nat.mod_eq_sub_mod (by omega), Nat.mod_eq_of_lt (by omega)]
      omega
    · rw [h1, h2] at heq
      have ha : (i + dir % n) % n = i + dir % n - n := by
        rw [Nat.mod_eq_sub_mod (by omega), Nat.mod_eq_of_lt (by omega)]
      have hb : (j + dir % n) % n = j + dir % n - n := by
        rw [Nat.mod_eq_sub_mod (by omega), Nat.mod_eq_of_lt (by omega)]
      omega

/-- Every seat receives from some source seat. -/
theorem pass_src_exists (n dir j : Nat) (hpos : 0 < n) (hj : j < n) :
    ∃ i, i < n ∧ (i + dir) % n = j := by
  refine ⟨(j + (n - dir % n)) % n, Nat.mod_lt _ hpos, ?_⟩
  rw [Nat.mod_add_mod]
  have hd : dir % n < n := Nat.mod_lt _ hpos
  have hdiv : dir % n + n * (dir / n) = dir := Nat.mod_add_div _ _
  have heq : j + (n - dir % n) + dir = j + n * (1 + dir / n) := by
    have : n * (1 + dir / n) = n + n * (dir / n) := by ring
    omega
  rw [heq, Nat.add_mul_mod_self_left]
  exact Nat.mod_eq_of_lt hj

theorem getD_map_of_lt {α β : Type} (f : α → β) (l : List α) (j : Nat)
    (d : α) (d' : β) (h : j < l.length) :
    (l.map f).getD j d' = f (l.getD j d) := by
  rw [List.getD_eq_getElem?_getD, List.getElem?_map, List.getD_eq_getElem?_getD,
    List.getElem?_eq_getElem h]
  rfl

/-- Characterization of the delivery loop of `pass_cards`: hands and
selections are untouched, and each seat `(i + dir) % n` ends up holding seat
`i`'s selection as its received cards. -/
theorem deliverPassedCards_aux (orig : List Player) (n dir : Nat)
    (hlen : orig.length = n) (hpos : 0 < n) :
    ∀ m, m ≤ n →
      ((List.range m).foldl (deliverStep n dir) orig).length = n ∧
      (∀ j,
        (((List.range m).foldl (deliverStep n dir) orig).getD j default).hand =
          (orig.getD j default).hand ∧
        (((List.range m).foldl (deliverStep n dir) orig).getD j
            default).passed_cards =
          (orig.getD j default).passed_cards) ∧
      (∀ i, i < m →
        (((List.range m).foldl (deliverStep n dir) orig).getD ((i + dir) % n)
            default).received_cards =
          (orig.getD i default).passed_cards) := by
  intro m
  induction m with
  | zero =>
    intro _
    exact ⟨hlen, fun j => ⟨rfl, rfl⟩, fun i hi => absurd hi (by omega)⟩
  | succ m ih =>
    intro hm
    obtain ⟨ihlen, ihfields, ihrecv⟩ := ih (by omega)
    rw [List.range_succ, List.foldl_append, List.foldl_cons, List.foldl_nil]
    set ps := (List.range m).foldl (deliverStep n dir) orig with hps
    unfold deliverStep
    set dest := (m + dir) % n with hdest
    have hdestlt : dest < n := Nat.mod_lt _ hpos
    refine ⟨?_, ?_, ?_⟩
    · rw [List.length_set]; exact ihlen
    · intro j
      rw [getD_set_any]
      by_cases hj : dest = j ∧ dest < ps.length
      · rw [if_pos hj]
        obtain ⟨rfl, _⟩ := hj
        exact ⟨(ihfields dest).1, (ihfields dest).2⟩
      · rw [if_neg hj]
        exact ihfields j
    · intro i hi
      rw [getD_set_any]
      by_cases hieq : i = m
      · subst hieq
        rw [if_pos ⟨rfl, by rw [ihlen]; exact hdestlt⟩]
        exact (ihfields i).2
      · have hine : ¬(dest = (i + dir) % n ∧ dest < ps.length) := by
          rintro ⟨hc, -⟩
          exact hieq (pass_dest_injective hpos (by omega) (by omega) hc).symm
        rw [if_neg hine]
        exact ihrecv i (by omega)

theorem deliverPassedCards_spec (orig : List Player) (n dir : Nat)
    (hlen : orig.length = n) (hpos : 0 < n) :
    (deliverPassedCards orig n dir).length = n ∧
    (∀ j, ((deliverPassedCards orig n dir).getD j default).hand =
        (orig.getD j default).hand ∧
      ((deliverPassedCards orig n dir).getD j default).passed_cards =
        (orig.getD j default).passed_cards) ∧
    (∀ i, i < n →
      ((deliverPassedCards orig n dir).getD ((i + dir) % n)
          default).received_cards =
        (orig.getD i default).passed_cards) :=
  deliverPassedCards_aux orig n dir hlen hpos n (Nat.le_refl _)

/-- Mid-match branch of `match_equity_for_scores`, in closed form. -/
theorem matchEquity_mid (scores : List Int) (L p : Nat)
    (hlen : 2 ≤ scores.length) (hp : p < scores.length)
    (hunder : ∀ s ∈ scores, s < (L : Int)) :
    matchEquityForScores scores L p =
      some (((((L : Int) - scores.getD p 0 : Int)) : Rat) /
        ((((scores.map (fun s => (L : Int) - s)).sum : Int)) : Rat)) := by
  unfold matchEquityForScores
  rw [if_neg (by omega), if_neg (fun h => h hp)]
  have hany : scores.any (fun s => decide (s ≥ (L : Int))) = false := by
    rw [List.any_eq_false]
    intro x hx
    simpa using not_le.mpr (hunder x hx)
  rw [if_neg (by rw [hany]; exact Bool.false_ne_true)]
  rw [foldl_add_sub, zero_add]

/-! ### Sampler invariants -/

theorem mem_insertSet {l : List Card} {a c : Card} :
    a ∈ insertSet l c ↔ a ∈ l ∨ a = c := by
  unfold insertSet
  by_cases hc : c ∈ l
  · rw [if_pos hc]
    constructor
    · exact Or.inl
    · rintro (h | rfl)
      · exact h
      · exact hc
  · rw [if_neg hc]
    simp

theorem nodup_insertSet {l : List Card} {c : Card} (h : l.Nodup) :
    (insertSet l c).Nodup := by
  unfold insertSet
  by_cases hc : c ∈ l
  · rw [if_pos hc]; exact h
  · rw [if_neg hc]
    rw [List.nodup_append]
    refine ⟨h, List.nodup_singleton _, ?_⟩
    intro a ha hac
    rw [List.mem_singleton] at hac
    exact hc (hac ▸ ha)

theorem mem_poolFold (voided : List Suit) (cards : List Card) :
    ∀ (init : List Card) (x : Card),
      x ∈ cards.foldl
          (fun acc c => if c.suit ∉ voided then insertSet acc c else acc)
          init ↔
        x ∈ init ∨ (x ∈ cards ∧ x.suit ∉ voided) := by
  induction cards with
  | nil => intro init x; simp
  | cons c rest ih =>
    intro init x
    rw [List.foldl_cons]
    by_cases hc : c.suit ∉ voided
    · rw [if_pos hc, ih, mem_insertSet]
      constructor
      · rintro ((h | rfl) | ⟨h1, h2⟩)
        · exact Or.inl h
        · exact Or.inr ⟨List.mem_cons_self _ _, hc⟩
        · exact Or.inr ⟨List.mem_cons_of_mem _ h1, h2⟩
      · rintro (h | ⟨h1, h2⟩)
        · exact Or.inl (Or.inl h)
        · rcases List.mem_cons.mp h1 with rfl | h1'
          · exact Or.inl (Or.inr rfl)
          · exact Or.inr ⟨h1', h2⟩
    · rw [if_neg hc, ih]
      constructor
      · rintro (h | ⟨h1, h2⟩)
        · exact Or.inl h
        · exact Or.inr ⟨List.mem_cons_of_mem _ h1, h2⟩
      · rintro (h | ⟨h1, h2⟩)
        · exact Or.inl h
        · rcases List.mem_cons.mp h1 with rfl | h1'
          · exact absurd h2 (by simpa using hc)
          · exact Or.inr ⟨h1', h2⟩

theorem nodup_poolFold (voided : List Suit) (cards : List Card) :
    ∀ (init : List Card), init.Nodup →
      (cards.foldl
        (fun acc c => if c.suit ∉ voided then insertSet acc c else acc)
        init).Nodup := by
  induction cards with
  | nil => intro init h; exact h
  | cons c rest ih =>
    intro init h
    rw [List.foldl_cons]
    by_cases hc : c.suit ∉ voided
    · rw [if_pos hc]; exact ih _ (nodup_insertSet h)
    · rw [if_neg hc]; exact ih _ h

theorem mem_initialLegalPool {req : CardDistributionRequest} {i : Nat}
    {c : Card} (h : c ∈ initialLegalPool req i) :
    c ∈ req.cards ∧
    c.suit ∉ (req.constraints.getD i default).voided_suits ∧
    (∀ j < req.constraints.length, j ≠ i →
      c ∉ (req.constraints.getD j default).fixed_cards) := by
  unfold initialLegalPool at h
  rw [List.mem_filter] at h
  obtain ⟨hmem, hfix⟩ := h
  rw [mem_poolFold] at hmem
  rcases hmem with h | ⟨h1, h2⟩
  · simp at h
  · refine ⟨h1, h2, ?_⟩
    intro j hj hne
    have := of_decide_eq_true hfix
    exact this j hj hne

theorem nodup_initialLegalPool (req : CardDistributionRequest) (i : Nat) :
    (initialLegalPool req i).Nodup := by
  unfold initialLegalPool
  exact (nodup_poolFold _ _ [] (List.nodup_nil)).filter _

/-- Evaluating an ascending fold of index-wise `set` updates; `F` is the loop
body, characterized pointwise by `hF`. -/
theorem foldl_setlike_length {α : Type} (F : List α → Nat → List α)
    (g : Nat → α → α) (d : α)
    (hF : ∀ acc p, F acc p = acc.set p (g p (acc.getD p d))) :
    ∀ (bs : List Nat) (l : List α), (bs.foldl F l).length = l.length := by
  intro bs
  induction bs with
  | nil => intro l; rfl
  | cons b rest ih =>
    intro l
    rw [List.foldl_cons, ih, hF, List.length_set]

theorem foldl_setlike_getD {α : Type} (F : List α → Nat → List α)
    (g : Nat → α → α) (d : α)
    (hF : ∀ acc p, F acc p = acc.set p (g p (acc.getD p d))) :
    ∀ (n : Nat) (l : List α) (j : Nat), j < l.length →
      ((List.range n).foldl F l).getD j d =
        if j < n then g j (l.getD j d) else l.getD j d := by
  intro n
  induction n with
  | zero => intro l j hj; simp
  | succ m ih =>
    intro l j hj
    rw [List.range_succ, List.foldl_append, List.foldl_cons, List.foldl_nil]
    have hlen : ((List.range m).foldl F l).length = l.length :=
      foldl_setlike_length F g d hF _ l
    rw [hF, getD_set_any]
    by_cases hjm : j = m
    · subst hjm
      rw [if_pos ⟨rfl, by omega⟩, ih l j hj, if_neg (by omega), if_pos (by omega)]
    · rw [if_neg (by intro hc; exact hjm hc.1.symm), ih l j hj]
      by_cases hj1 : j < m
      · rw [if_pos hj1, if_pos (by omega)]
      · rw [if_neg hj1, if_neg (by omega)]

/-- What a `ForcedScanResult.take` outcome certifies. -/
theorem forcedScanFrom_take {cons : List CardDistributionPlayerConstraint}
    {st : DistState} {i : Nat} :
    ∀ {idxs : List Nat}, forcedScanFrom cons st idxs = ForcedScanResult.take i →
      i ∈ idxs ∧
      (cons.getD i default).num_cards - (st.result.getD i []).length > 0 ∧
      (cons.getD i default).num_cards - (st.result.getD i []).length =
        (st.legal.getD i []).length := by
  intro idxs
  induction idxs with
  | nil => intro h; exact absurd h (by simp [forcedScanFrom])
  | cons x rest ih =>
    intro h
    unfold forcedScanFrom at h
    by_cases h1 : (cons.getD x default).num_cards -
        (st.result.getD x []).length > 0
    · rw [if_pos h1] at h
      by_cases h2 : (cons.getD x default).num_cards -
          (st.result.getD x []).length > (st.legal.getD x []).length
      · rw [if_pos h2] at h
        exact absurd h (by simp)
      · rw [if_neg h2] at h
        by_cases h3 : (cons.getD x default).num_cards -
            (st.result.getD x []).length = (st.legal.getD x []).length
        · rw [if_pos h3] at h
          injection h with h'
          subst h'
          exact ⟨List.mem_cons_self _ _, h1, h3⟩
        · rw [if_neg h3] at h
          obtain ⟨hm, hr⟩ := ih h
          exact ⟨List.mem_cons_of_mem _ hm, hr⟩
    · rw [if_neg h1] at h
      obtain ⟨hm, hr⟩ := ih h
      exact ⟨List.mem_cons_of_mem _ hm, hr⟩

theorem forcedScan_take {cons : List CardDistributionPlayerConstraint}
    {st : DistState} {i : Nat}
    (h : forcedScan cons st = ForcedScanResult.take i) :
    i < cons.length ∧
    (cons.getD i default).num_cards - (st.result.getD i []).length > 0 ∧
    (cons.getD i default).num_cards - (st.result.getD i []).length =
      (st.legal.getD i []).length := by
  obtain ⟨hm, hr⟩ := forcedScanFrom_take h
  exact ⟨List.mem_range.mp hm, hr⟩

/-- What a `chooseFirstNeedy` hit certifies. -/
theorem chooseFirstNeedy_some {cons : List CardDistributionPlayerConstraint}
    {st : DistState} {i : Nat}
    (h : chooseFirstNeedy cons st = some i) :
    i < cons.length ∧
    (cons.getD i default).num_cards - (st.result.getD i []).length > 0 := by
  unfold chooseFirstNeedy at h
  have hm := List.mem_of_find?_eq_some h
  have hp := List.find?_some h
  exact ⟨List.mem_range.mp hm, by simpa using hp⟩

theorem chooseFirstNeedy_none {cons : List CardDistributionPlayerConstraint}
    {st : DistState}
    (h : chooseFirstNeedy cons st = none) :
    ∀ i < cons.length,
      (cons.getD i default).num_cards - (st.result.getD i []).length = 0 := by
  unfold chooseFirstNeedy at h
  rw [List.find?_eq_none] at h
  intro i hi
  have := h i (List.mem_range.mpr hi)
  simp only [decide_eq_true_eq, Nat.not_lt] at this
  omega

theorem takeAll_result_getD (n i : Nat) (st : DistState) (j : Nat) :
    (takeAll n i st).result.getD j [] =
      if i = j ∧ i < st.result.length
      then st.result.getD i [] ++ st.legal.getD i []
      else st.result.getD j [] :=
  getD_set_any

theorem takeAll_result_length (n i : Nat) (st : DistState) :
    (takeAll n i st).result.length = st.result.length :=
  List.length_set _ _ _

theorem takeAll_legal_length (n i : Nat) (st : DistState) :
    (takeAll n i st).legal.length = st.legal.length := by
  unfold takeAll
  dsimp only
  exact foldl_setlike_length _
    (fun _ v => v.filter (fun c => c ∉ st.legal.getD i [])) ([] : List Card)
    (fun acc p => rfl) _ st.legal

theorem takeAll_legal_getD (n i : Nat) (st : DistState)
    (hlen : st.legal.length = n) (j : Nat) (hj : j < n) :
    (takeAll n i st).legal.getD j [] =
      (st.legal.getD j []).filter (fun c => c ∉ st.legal.getD i []) := by
  unfold takeAll
  dsimp only
  have h := foldl_setlike_getD
    (fun ls j => ls.set j ((ls.getD j []).filter
      (fun c => c ∉ st.legal.getD i [])))
    (fun _ v => v.filter (fun c => c ∉ st.legal.getD i [])) ([] : List Card)
    (fun acc p => rfl) n st.legal j (by rw [hlen]; exact hj)
  rw [if_pos hj] at h
  exact h

theorem takeAll_legal_getD_ge (n i : Nat) (st : DistState)
    (hlen : st.legal.length = n) (j : Nat) (hj : ¬j < n) :
    (takeAll n i st).legal.getD j [] = [] := by
  have hl : (takeAll n i st).legal.length = n :=
    (takeAll_legal_length n i st).trans hlen
  rw [List.getD_eq_getElem?_getD, List.getElem?_eq_none (by omega)]
  rfl

theorem assignCard_result_getD (n i : Nat) (c : Card) (st : DistState)
    (j : Nat) :
    (assignCard n i c st).result.getD j [] =
      if i = j ∧ i < st.result.length
      then st.result.getD i [] ++ [c]
      else st.result.getD j [] :=
  getD_set_any

theorem assignCard_result_length (n i : Nat) (c : Card) (st : DistState) :
    (assignCard n i c st).result.length = st.result.length :=
  List.length_set _ _ _

theorem assignCard_legal_length (n i : Nat) (c : Card) (st : DistState) :
    (assignCard n i c st).legal.length = st.legal.length := by
  unfold assignCard
  dsimp only
  exact foldl_setlike_length _ (fun _ v => v.erase c) ([] : List Card)
    (fun acc p => rfl) _ st.legal

theorem assignCard_legal_getD (n i : Nat) (c : Card) (st : DistState)
    (hlen : st.legal.length = n) (j : Nat) (hj : j < n) :
    (assignCard n i c st).legal.getD j [] = (st.legal.getD j []).erase c := by
  unfold assignCard
  dsimp only
  have h := foldl_setlike_getD (fun ls j => ls.set j ((ls.getD j []).erase c))
    (fun _ v => v.erase c) ([] : List Card)
    (fun acc p => rfl) n st.legal j (by rw [hlen]; exact hj)
  rw [if_pos hj] at h
  exact h

theorem assignCard_legal_getD_ge (n i : Nat) (c : Card) (st : DistState)
    (hlen : st.legal.length = n) (j : Nat) (hj : ¬j < n) :
    (assignCard n i c st).legal.getD j [] = [] := by
  have hl : (assignCard n i c st).legal.length = n :=
    (assignCard_legal_length n i c st).trans hlen
  rw [List.getD_eq_getElem?_getD, List.getElem?_eq_none (by omega)]
  rfl

theorem distInv_initial (req : CardDistributionRequest) :
    DistInv req (initialDistState req) := by
  have hres : ∀ i, (initialDistState req).result.getD i [] = ([] : List Card) := by
    intro i
    show (List.replicate req.constraints.length ([] : List Card)).getD i [] = []
    rw [List.getD_eq_getElem?_getD, List.getElem?_replicate]
    split <;> rfl
  have hleg : ∀ i, (initialDistState req).legal.getD i [] =
      if i < req.constraints.length then initialLegalPool req i else [] := by
    intro i
    show ((List.range req.constraints.length).map
      (initialLegalPool req)).getD i [] = _
    by_cases hi : i < req.constraints.length
    · rw [if_pos hi,
        getD_map_of_lt (initialLegalPool req) _ i 0 [] (by simpa using hi)]
      congr 1
      rw [getD_eq_get _ _ _ (by simpa using hi)]
      simp
    · rw [if_neg hi, List.getD_eq_getElem?_getD,
        List.getElem?_eq_none (by simpa using hi)]
      rfl
  constructor
  · exact List.length_replicate _ _
  · simp [initialDistState]
  · intro i _; rw [hres]; simp
  · intro i c hc
    rw [hleg] at hc
    by_cases hi : i < req.constraints.length
    · rw [if_pos hi] at hc; exact hc
    · rw [if_neg hi] at hc; exact absurd hc (by simp)
  · intro i _ c hc; rw [hres] at hc; exact absurd hc (by simp)
  · intro i; rw [hres]; exact List.nodup_nil
  · intro i j _ c hc; rw [hres] at hc; exact absurd hc (by simp)
  · intro i j c _; rw [hres]; simp
  · intro i
    rw [hleg]
    by_cases hi : i < req.constraints.length
    · rw [if_pos hi]; exact nodup_initialLegalPool req i
    · rw [if_neg hi]; exact List.nodup_nil

theorem distInv_takeAll (req : CardDistributionRequest) (st : DistState)
    (i : Nat) (hinv : DistInv req st) (hi : i < req.constraints.length)
    (hneed :
      (req.constraints.getD i default).num_cards -
        (st.result.getD i []).length = (st.legal.getD i []).length) :
    DistInv req (takeAll req.constraints.length i st) := by
  set n := req.constraints.length with hn
  have hresj : ∀ j, (takeAll n i st).result.getD j [] =
      if i = j then st.result.getD i [] ++ st.legal.getD i []
      else st.result.getD j [] := by
    intro j
    rw [takeAll_result_getD]
    by_cases hij : i = j
    · rw [if_pos ⟨hij, by rw [hinv.reslen]; exact hi⟩, if_pos hij]
    · rw [if_neg (fun hcon => hij hcon.1), if_neg hij]
  have hlegj : ∀ j, (takeAll n i st).legal.getD j [] =
      (st.legal.getD j []).filter (fun c => c ∉ st.legal.getD i []) := by
    intro j
    by_cases hj : j < n
    · exact takeAll_legal_getD n i st hinv.leglen j hj
    · rw [takeAll_legal_getD_ge n i st hinv.leglen j hj]
      have hemp : st.legal.getD j [] = [] := by
        rw [List.getD_eq_getElem?_getD,
          List.getElem?_eq_none (by rw [hinv.leglen]; omega)]
        rfl
      rw [hemp]
      rfl
  constructor
  · rw [takeAll_result_length]; exact hinv.reslen
  · rw [takeAll_legal_length]; exact hinv.leglen
  · intro j hj
    rw [hresj]
    by_cases hij : i = j
    · subst hij
      rw [if_pos rfl, List.length_append]
      have := hinv.resle i hi
      omega
    · rw [if_neg hij]; exact hinv.resle j hj
  · intro j c hc
    rw [hlegj, List.mem_filter] at hc
    exact hinv.legsub j c hc.1
  · intro j hj c hc
    rw [hresj] at hc
    by_cases hij : i = j
    · subst hij
      rw [if_pos rfl, List.mem_append] at hc
      rcases hc with h | h
      · exact hinv.rescards i hi c h
      · exact hinv.legsub i c h
    · rw [if_neg hij] at hc
      exact hinv.rescards j hj c hc
  · intro j
    rw [hresj]
    by_cases hij : i = j
    · rw [if_pos hij]
      exact (hinv.resnodup i).append (hinv.legnodup i)
        (fun a ha hal => hinv.legres i i a hal ha)
    · rw [if_neg hij]; exact hinv.resnodup j
  · intro a b hab c hca
    rw [hresj] at hca
    rw [hresj]
    by_cases hia : i = a
    · subst hia
      rw [if_pos rfl, List.mem_append] at hca
      rw [if_neg hab]
      rcases hca with h | h
      · exact hinv.disj i b hab c h
      · exact hinv.legres i b c h
    · rw [if_neg hia] at hca
      by_cases hib : i = b
      · subst hib
        rw [if_pos rfl]
        simp only [List.mem_append]
        rintro (h | h)
        · exact hinv.disj a i hab c hca h
        · exact hinv.legres i a c h hca
      · rw [if_neg hib]
        exact hinv.disj a b hab c hca
  · intro a b c hc
    rw [hlegj, List.mem_filter] at hc
    obtain ⟨hca, hcnot⟩ := hc
    rw [hresj]
    by_cases hib : i = b
    · rw [if_pos hib]
      simp only [List.mem_append]
      rintro (h | h)
      · exact hinv.legres a i c hca h
      · exact (of_decide_eq_true hcnot) h
    · rw [if_neg hib]
      exact hinv.legres a b c hca
  · intro a
    rw [hlegj]
    exact (hinv.legnodup a).filter _

theorem distInv_assignCard (req : CardDistributionRequest) (st : DistState)
    (i : Nat) (c : Card) (hinv : DistInv req st)
    (hi : i < req.constraints.length)
    (hneed : (req.constraints.getD i default).num_cards -
      (st.result.getD i []).length > 0)
    (hc : c ∈ st.legal.getD i []) :
    DistInv req (assignCard req.constraints.length i c st) := by
  set n := req.constraints.length with hn
  have hresj : ∀ j, (assignCard n i c st).result.getD j [] =
      if i = j then st.result.getD i [] ++ [c]
      else st.result.getD j [] := by
    intro j
    rw [assignCard_result_getD]
    by_cases hij : i = j
    · rw [if_pos ⟨hij, by rw [hinv.reslen]; exact hi⟩, if_pos hij]
    · rw [if_neg (fun hcon => hij hcon.1), if_neg hij]
  have hlegj : ∀ j, (assignCard n i c st).legal.getD j [] =
      (st.legal.getD j []).erase c := by
    intro j
    by_cases hj : j < n
    · exact assignCard_legal_getD n i c st hinv.leglen j hj
    · rw [assignCard_legal_getD_ge n i c st hinv.leglen j hj]
      have hemp : st.legal.getD j [] = [] := by
        rw [List.getD_eq_getElem?_getD,
          List.getElem?_eq_none (by rw [hinv.leglen]; omega)]
        rfl
      rw [hemp]
      rfl
  constructor
  · rw [assignCard_result_length]; exact hinv.reslen
  · rw [assignCard_legal_length]; exact hinv.leglen
  · intro j hj
    rw [hresj]
    by_cases hij : i = j
    · subst hij
      rw [if_pos rfl, List.length_append]
      have := hinv.resle i hi
      simp only [List.length_singleton]
      omega
    · rw [if_neg hij]; exact hinv.resle j hj
  · intro j x hx
    rw [hlegj] at hx
    exact hinv.legsub j x (List.mem_of_mem_erase hx)
  · intro j hj x hx
    rw [hresj] at hx
    by_cases hij : i = j
    · subst hij
      rw [if_pos rfl, List.mem_append, List.mem_singleton] at hx
      rcases hx with h | rfl
      · exact hinv.rescards i hi x h
      · exact hinv.legsub i x hc
    · rw [if_neg hij] at hx
      exact hinv.rescards j hj x hx
  · intro j
    rw [hresj]
    by_cases hij : i = j
    · rw [if_pos hij]
      refine (hinv.resnodup i).append (List.nodup_singleton _) ?_
      intro a ha hal
      rw [List.mem_singleton] at hal
      subst hal
      exact hinv.legres i i a hc ha
    · rw [if_neg hij]; exact hinv.resnodup j
  · intro a b hab x hxa
    rw [hresj] at hxa
    rw [hresj]
    by_cases hia : i = a
    · subst hia
      rw [if_pos rfl, List.mem_append, List.mem_singleton] at hxa
      rw [if_neg hab]
      rcases hxa with h | rfl
      · exact hinv.disj i b hab x h
      · exact hinv.legres i b x hc
    · rw [if_neg hia] at hxa
      by_cases hib : i = b
      · subst hib
        rw [if_pos rfl]
        simp only [List.mem_append, List.mem_singleton]
        rintro (h | rfl)
        · exact hinv.disj a i hab x hxa h
        · exact hinv.legres i a x hc hxa
      · rw [if_neg hib]
        exact hinv.disj a b hab x hxa
  · intro a b x hx
    rw [hlegj] at hx
    have hxac : x ∈ st.legal.getD a [] := List.mem_of_mem_erase hx
    have hxne : x ≠ c :=
      ((hinv.legnodup a).mem_erase_iff.mp hx).1
    rw [hresj]
    by_cases hib : i = b
    · rw [if_pos hib]
      simp only [List.mem_append, List.mem_singleton]
      rintro (h | rfl)
      · exact hinv.legres a i x hxac h
      · exact hxne rfl
    · rw [if_neg hib]
      exact hinv.legres a b x hxac
  · intro a
    rw [hlegj]
    exact (hinv.legnodup a).erase _

theorem distLoop_ok (req : CardDistributionRequest) (g : Nat → Nat) :
    ∀ (fuel : Nat) (st : DistState) (k k' : Nat) (res : List (List Card)),
      DistInv req st →
      distLoop req.constraints g fuel st k = some (Except.ok res, k') →
      res.length = req.constraints.length ∧
      (∀ i, i < req.constraints.length →
        (res.getD i []).length = (req.constraints.getD i default).num_cards) ∧
      (∀ i, i < req.constraints.length → ∀ c ∈ res.getD i [],
        c ∈ initialLegalPool req i) ∧
      (∀ i, (res.getD i []).Nodup) ∧
      (∀ i j, i ≠ j → ∀ c ∈ res.getD i [], c ∉ res.getD j []) := by
  intro fuel
  induction fuel with
  | zero =>
    intro st k k' res _ h
    exact absurd h (by simp [distLoop])
  | succ fuel ih =>
    intro st k k' res hinv h
    unfold distLoop at h
    split at h
    · exact absurd h (by simp)
    · next i hscan =>
      obtain ⟨hi, hpos, heq⟩ := forcedScan_take hscan
      exact ih _ _ _ _ (distInv_takeAll req st i hinv hi heq) h
    · next hscan =>
      split at h
      · next hchoose =>
        simp only [Option.some.injEq, Prod.mk.injEq, Except.ok.injEq] at h
        obtain ⟨hres, hk⟩ := h
        subst hres
        have hneeds := chooseFirstNeedy_none hchoose
        refine ⟨hinv.reslen, ?_, hinv.rescards, hinv.resnodup, hinv.disj⟩
        intro i hilt
        have h1 := hinv.resle i hilt
        have h2 := hneeds i hilt
        omega
      · next i hchoose =>
        split at h
        · exact absurd h (by simp)
        · next c k2 hrand =>
          obtain ⟨hi, hneed⟩ := chooseFirstNeedy_some hchoose
          exact ih _ _ _ _
            (distInv_assignCard req st i c hinv hi hneed
              (randomFromList_mem hrand)) h

theorem pcdLoop_ok (req : CardDistributionRequest) (g : Nat → Nat) :
    ∀ (n k k' : Nat) (res : List (List Card)),
      pcdLoop req g n k = some (Except.ok res, k') →
      res.length = req.constraints.length ∧
      (∀ i, i < req.constraints.length →
        (res.getD i []).length = (req.constraints.getD i default).num_cards) ∧
      (∀ i, i < req.constraints.length → ∀ c ∈ res.getD i [],
        c ∈ initialLegalPool req i) ∧
      (∀ i, (res.getD i []).Nodup) ∧
      (∀ i j, i ≠ j → ∀ c ∈ res.getD i [], c ∉ res.getD j []) := by
  intro n
  induction n with
  | zero =>
    intro k k' res h
    exact absurd h (by simp [pcdLoop])
  | succ n ih =>
    intro k k' res h
    unfold pcdLoop at h
    split at h
    · exact absurd h (by simp)
    · next r k1 hsingle =>
      simp only [Option.some.injEq, Prod.mk.injEq, Except.ok.injEq] at h
      obtain ⟨hres, hk⟩ := h
      subst hres
      exact distLoop_ok req g (distFuel req) (initialDistState req) k k1 r
        (distInv_initial req) hsingle
    · next e k1 hsingle =>
      exact ih k1 k' res h

theorem sum_map_len_eq {α β : Type} (f : α → Nat) (g : β → Nat) :
    ∀ (l1 : List α) (l2 : List β) (d1 : α) (d2 : β),
      l1.length = l2.length →
      (∀ i, i < l1.length → f (l1.getD i d1) = g (l2.getD i d2)) →
      (l1.map f).sum = (l2.map g).sum := by
  intro l1
  induction l1 with
  | nil =>
    intro l2 d1 d2 hlen _
    cases l2 with
    | nil => rfl
    | cons y ys => simp at hlen
  | cons x xs ih =>
    intro l2 d1 d2 hlen h
    cases l2 with
    | nil => simp at hlen
    | cons y ys =>
      rw [List.map_cons, List.sum_cons, List.map_cons, List.sum_cons]
      have h0 : f x = g y := h 0 (by simp)
      rw [h0, ih ys d1 d2 (by simpa using hlen)
        (fun i hi => h (i + 1) (by simpa using hi))]

theorem attemptPos_shift (req : CardDistributionRequest) (g : Nat → Nat) :
    ∀ (j k : Nat),
      attemptPos req g k (j + 1) =
        attemptPos req g (attemptPos req g k 1) j := by
  intro j
  induction j with
  | zero => intro k; rfl
  | succ j ih =>
    intro k
    show (match possibleCardDistributionSingle req g (attemptPos req g k (j + 1))
          with
          | some (_, k') => k'
          | none => attemptPos req g k (j + 1)) = _
    rw [ih k]
    rfl

theorem attemptPos_one (req : CardDistributionRequest) (g : Nat → Nat)
    {k k1 : Nat} {out : Except CardError (List (List Card))}
    (h : possibleCardDistributionSingle req g k = some (out, k1)) :
    attemptPos req g k 1 = k1 := by
  show (match possibleCardDistributionSingle req g (attemptPos req g k 0) with
        | some (_, k') => k'
        | none => attemptPos req g k 0) = k1
  rw [show attemptPos req g k 0 = k from rfl, h]

/-- When sampling a hypothetical round fails, the hands loop of the Monte
Carlo engine immediately returns the avoid-points fallback. -/
theorem mcHands_fallback (ccReq : CardToPlayDirectRequest)
    (strat : CardToPlayStrategy) (g : Nat → Nat) (lp : List Card)
    (distReq : CardDistributionRequest) (rollouts pnum n : Nat)
    (eqs : List Rat) (k k' : Nat)
    (hfail : possibleRound ccReq distReq g k = some (none, k')) :
    mcHands ccReq strat g lp distReq rollouts pnum (n + 1) eqs k =
      Option.map Except.error (chooseCardAvoidPoints ccReq g k') := by
  unfold mcHands
  rw [hfail]
  show (match chooseCardAvoidPoints ccReq g k' with
        | none => none
        | some ck => some (Except.error ck)) =
    Option.map Except.error (chooseCardAvoidPoints ccReq g k')
  cases chooseCardAvoidPoints ccReq g k' <;> rfl

/-- Constantly failing attempts make the retry wrapper yield the
`Unsatisfiable`-after-retries error at the initial cursor. -/
theorem pcdLoop_const_error (req : CardDistributionRequest) (g : Nat → Nat)
    (hconst : ∀ k, possibleCardDistributionSingle req g k =
      some (Except.error CardError.cannotSatisfy, k)) :
    ∀ n k, pcdLoop req g n k =
      some (Except.error CardError.unsatisfiableAfterRetries, k) := by
  intro n
  induction n with
  | zero => intro k; rfl
  | succ n ih =>
    intro k
    unfold pcdLoop
    rw [hconst k]
    exact ih k

theorem avoidPointsLead_mem {lp : List Card} {g : Nat → Nat} {k : Nat}
    {c : Card} {k' : Nat} (h : avoidPointsLead lp g k = some (c, k')) :
    c ∈ lp := by
  unfold avoidPointsLead at h
  split at h
  · exact absurd h (by simp)
  next suit k2 hrand =>
    split at h
    · exact absurd h (by simp)
    next lowestRank hlast =>
      injection h with h1
      injection h1 with hc hk
      subst hc
      exact mem_of_mem_ranksForSuit (mem_of_getLast?_eq_some hlast)

theorem highestNonQS_mem {lp : List Card} {c : Card}
    (h : highestNonQS lp = some c) : c ∈ lp := by
  unfold highestNonQS at h
  exact (List.mem_filter.mp (maxByRankLast_mem h)).1

theorem lowestNonQS_mem {lp : List Card} {c : Card}
    (h : lowestNonQS lp = some c) : c ∈ lp := by
  unfold lowestNonQS at h
  exact (List.mem_filter.mp (minByRankFirst_mem h)).1

theorem highestNonwinner_mem {lp : List Card} {hasJD : Bool} {highCard : Card}
    {c : Card} (h : highestNonwinner lp hasJD highCard = some c) : c ∈ lp := by
  unfold highestNonwinner at h
  exact (List.mem_filter.mp (maxByRankLast_mem h)).1

theorem avoidPointsLastPlay_mem {lp : List Card} {rules : RuleSet}
    {trickCards : List Card} {highCard : Card} {hasJD : Bool} {k : Nat}
    {c : Card} {k' : Nat}
    (hJD : hasJD = true → JACK_OF_DIAMONDS ∈ lp)
    (h : avoidPointsLastPlay lp rules trickCards highCard hasJD k
      = some (c, k')) : c ∈ lp := by
  unfold avoidPointsLastPlay at h
  dsimp only at h
  split at h
  next hguard =>
    injection h with h1
    injection h1 with hc hk
    subst hc
    exact hJD hguard.1
  next hguard =>
    split at h
    · split at h
      · exact absurd h (by simp)
      next c0 hmax =>
        injection h with h1
        injection h1 with hc hk
        subst hc
        exact highestNonQS_mem hmax
    · split at h
      next c0 hnw =>
        injection h with h1
        injection h1 with hc hk
        subst hc
        exact highestNonwinner_mem hnw
      next hnone =>
        split at h
        · exact absurd h (by simp)
        next c0 hmax =>
          injection h with h1
          injection h1 with hc hk
          subst hc
          exact highestNonQS_mem hmax

theorem avoidPointsNotLastPlay_mem {lp : List Card} {highCard : Card}
    {hasJD : Bool} {k : Nat} {c : Card} {k' : Nat}
    (h : avoidPointsNotLastPlay lp highCard hasJD k = some (c, k')) :
    c ∈ lp := by
  unfold avoidPointsNotLastPlay at h
  split at h
  next c0 hnw =>
    injection h with h1
    injection h1 with hc hk
    subst hc
    exact highestNonwinner_mem hnw
  next hnone =>
    split at h
    · exact absurd h (by simp)
    next c0 hmin =>
      injection h with h1
      injection h1 with hc hk
      subst hc
      exact lowestNonQS_mem hmin

theorem avoidPointsFollowing_mem {req : CardToPlayDirectRequest}
    {lp : List Card} {legalSuits : List Suit} {k : Nat} {c : Card} {k' : Nat}
    (h : avoidPointsFollowing req lp legalSuits k = some (c, k')) :
    c ∈ lp := by
  unfold avoidPointsFollowing at h
  dsimp only at h
  split at h
  · exact absurd h (by simp)
  · split at h
    · split at h
      · exact absurd h (by simp)
      next c0 hmax =>
        injection h with h1
        injection h1 with hc hk
        subst hc
        exact highestNonQS_mem hmax
    · split at h
      · exact absurd h (by simp)
      next highCard hhigh =>
        split at h
        next hqs =>
          injection h with h1
          injection h1 with hc hk
          subst hc
          exact of_decide_eq_true hqs.1
        next =>
          split at h
          · exact avoidPointsLastPlay_mem
              (fun hj => (of_decide_eq_true hj).2) h
          · exact avoidPointsNotLastPlay_mem h

theorem avoidPointsDiscard_mem {req : CardToPlayDirectRequest}
    {lp : List Card} {legalSuits : List Suit} {k : Nat} {c : Card} {k' : Nat}
    (h : avoidPointsDiscard req lp legalSuits k = some (c, k')) :
    c ∈ lp := by
  unfold avoidPointsDiscard at h
  dsimp only at h
  split at h
  next hqs =>
    injection h with h1
    injection h1 with hc hk
    subst hc
    exact of_decide_eq_true hqs
  next =>
    split at h
    · split at h
      · exact absurd h (by simp)
      next c0 hmax =>
        injection h with h1
        injection h1 with hc hk
        subst hc
        exact (List.mem_filter.mp (maxByRankLast_mem hmax)).1
    · split at h
      · exact absurd h (by simp)
      next c0 hmax =>
        injection h with h1
        injection h1 with hc hk
        subst hc
        exact (List.mem_filter.mp (maxByRankLast_mem hmax)).1

theorem chooseCardAvoidPoints_mem {req : CardToPlayDirectRequest}
    {g : Nat → Nat} {k : Nat} {c : Card} {k' : Nat}
    (h : chooseCardAvoidPoints req g k = some (c, k')) :
    c ∈ reqLegalPlays req := by
  unfold chooseCardAvoidPoints at h
  dsimp only at h
  split at h
  · exact absurd h (by simp)
  · split at h
    next hlen1 =>
      injection h with h1
      injection h1 with hc hk
      subst hc
      exact getD_mem _ 0 default (by omega)
    · split at h
      · exact avoidPointsLead_mem h
      · split at h
        · exact avoidPointsFollowing_mem h
        · exact avoidPointsDiscard_mem h

theorem chooseCardRandom_mem {req : CardToPlayDirectRequest} {g : Nat → Nat}
    {k : Nat} {c : Card} {k' : Nat}
    (h : chooseCardRandom req g k = some (c, k')) : c ∈ reqLegalPlays req := by
  unfold chooseCardRandom at h
  exact randomFromList_mem h

theorem chooseCardNonrecursive_mem {req : CardToPlayDirectRequest}
    {strategy : CardToPlayStrategy} {g : Nat → Nat} {k : Nat} {c : Card}
    {k' : Nat} (h : chooseCardNonrecursive req strategy g k = some (c, k')) :
    c ∈ reqLegalPlays req := by
  unfold chooseCardNonrecursive at h
  split at h
  · exact chooseCardRandom_mem h
  · exact chooseCardAvoidPoints_mem h
  · split at h
    · exact chooseCardRandom_mem h
    · exact chooseCardAvoidPoints_mem h
  · exact absurd h (by simp)

theorem perPlayLoop_length {req : CardToPlayDirectRequest}
    {rolloutStrategy : CardToPlayStrategy} {g : Nat → Nat} {lp : List Card}
    {hypoRound : Round} {rollouts pnum : Nat} :
    ∀ {cis : List Nat} {eqs : List Rat} {k : Nat} {eqs' : List Rat} {k' : Nat},
    perPlayLoop req rolloutStrategy g lp hypoRound rollouts pnum cis eqs k
      = some (eqs', k') → eqs'.length = eqs.length := by
  intro cis
  induction cis with
  | nil =>
    intro eqs k eqs' k' h
    rw [perPlayLoop] at h
    injection h with h1
    injection h1 with he hk
    rw [← he]
  | cons ci rest ih =>
    intro eqs k eqs' k' h
    rw [perPlayLoop] at h
    split at h
    · exact absurd h (by simp)
    next delta k2 hroll =>
      have := ih h
      rw [this, List.length_set]

theorem mcHands_ok_length {req : CardToPlayDirectRequest}
    {rolloutStrategy : CardToPlayStrategy} {g : Nat → Nat} {lp : List Card}
    {distReq : CardDistributionRequest} {rollouts pnum : Nat} :
    ∀ {n : Nat} {eqs : List Rat} {k : Nat} {eqs' : List Rat} {k' : Nat},
    mcHands req rolloutStrategy g lp distReq rollouts pnum n eqs k
      = some (Except.ok (eqs', k')) → eqs'.length = eqs.length := by
  intro n
  induction n with
  | zero =>
    intro eqs k eqs' k' h
    rw [mcHands] at h
    injection h with h1
    injection h1 with h2
    injection h2 with he hk
    rw [← he]
  | succ n ih =>
    intro eqs k eqs' k' h
    rw [mcHands] at h
    split at h
    · exact absurd h (by simp)
    · split at h
      · exact absurd h (by simp)
      next ck hch =>
        injection h with h1
        exact absurd h1 (by simp)
    next hypoRound k2 hpr =>
      split at h
      · exact absurd h (by simp)
      next eqs2 k3 hper =>
        rw [ih h, perPlayLoop_length hper]

theorem mcHands_error_mem {req : CardToPlayDirectRequest}
    {rolloutStrategy : CardToPlayStrategy} {g : Nat → Nat} {lp : List Card}
    {distReq : CardDistributionRequest} {rollouts pnum : Nat} :
    ∀ {n : Nat} {eqs : List Rat} {k : Nat} {ck : Card × Nat},
    mcHands req rolloutStrategy g lp distReq rollouts pnum n eqs k
      = some (Except.error ck) → ck.1 ∈ reqLegalPlays req := by
  intro n
  induction n with
  | zero =>
    intro eqs k ck h
    rw [mcHands] at h
    injection h with h1
    exact absurd h1 (by simp)
  | succ n ih =>
    intro eqs k ck h
    rw [mcHands] at h
    split at h
    · exact absurd h (by simp)
    · split at h
      · exact absurd h (by simp)
      next ck0 hch =>
        injection h with h1
        injection h1 with h2
        subst h2
        exact chooseCardAvoidPoints_mem hch
    next hypoRound k2 hpr =>
      split at h
      · exact absurd h (by simp)
      next eqs2 k3 hper => exact ih h

theorem foldl_enum_fst_lt {bnd : Nat} :
    ∀ (l : List (Nat × Rat)) (init : Nat × Rat),
    (∀ p ∈ l, p.1 < bnd) → init.1 < bnd →
    (l.foldl (fun best x => if best.2 < x.2 then (x.1, x.2) else best)
      init).1 < bnd := by
  intro l
  induction l with
  | nil => intro init _ hi; simpa using hi
  | cons x xs ih =>
    intro init hl hi
    rw [List.foldl_cons]
    apply ih _ (fun p hp => hl p (List.mem_cons_of_mem _ hp))
    by_cases hc : init.2 < x.2
    · rw [if_pos hc]; exact hl x (List.mem_cons_self _ _)
    · rw [if_neg hc]; exact hi

theorem maxIndex_lt_length {vals : List Rat} (h : vals ≠ []) :
    maxIndex vals < vals.length := by
  unfold maxIndex
  apply foldl_enum_fst_lt
  · intro p hp
    have := (List.mem_enumFrom hp).2.1
    omega
  · simpa using List.length_pos.mpr h

theorem chooseCardMonteCarlo_mem {req : CardToPlayDirectRequest}
    {mcParams : MonteCarloParams} {rolloutStrategy : CardToPlayStrategy}
    {g : Nat → Nat} {k : Nat} {c : Card} {k' : Nat}
    (h : chooseCardMonteCarlo req mcParams rolloutStrategy g k
      = some (c, k')) : c ∈ reqLegalPlays req := by
  unfold chooseCardMonteCarlo at h
  dsimp only at h
  split at h
  · exact absurd h (by simp)
  next hlen0 =>
    split at h
    next hlen1 =>
      injection h with h1
      injection h1 with hc hk
      subst hc
      exact getD_mem _ 0 default (by omega)
    next hlen1 =>
      split at h
      · exact absurd h (by simp)
      next ck hmc =>
        injection h with h1
        have hmem := mcHands_error_mem hmc
        rw [h1] at hmem
        exact hmem
      next eqs k2 hmc =>
        injection h with h1
        injection h1 with hc hk
        subst hc
        apply getD_mem
        have hlen := mcHands_ok_length hmc
        rw [List.length_replicate] at hlen
        have hne : eqs ≠ [] := by
          intro he
          rw [he] at hlen
          simp at hlen
          omega
        have := maxIndex_lt_length hne
        omega

/-! ## Claim theorems -/

/-- C10: on the very first play of a round (no previous tricks, empty current
trick), a hand that does not contain the two of clubs gets an empty
`legal_plays` list — there is no fallback play, even for a non-empty hand. -/
theorem legal_plays_empty_without_two_of_clubs
    (hand : List Card) (ct : TrickInProgress) (rules : RuleSet)
    (hct : ct.cards = []) (h2c : TWO_OF_CLUBS ∉ hand) :
    legalPlays hand ct [] rules = [] := by
  unfold legalPlays
  simp [hct, h2c]

theorem legal_plays_empty_without_two_of_clubs_witness :
    legalPlays [⟨Rank.ACE, Suit.Spades⟩, ⟨Rank.KING, Suit.Hearts⟩]
        (TrickInProgress.new 0) [] defaultRules = [] ∧
      [⟨Rank.ACE, Suit.Spades⟩, ⟨Rank.KING, Suit.Hearts⟩] ≠ ([] : List Card) :=
  ⟨legal_plays_empty_without_two_of_clubs _ _ _ rfl (by decide), by decide⟩

/-- C2: following on the first trick with no card of the led suit and
`points_on_first_trick = false`, `legal_plays` is exactly the set of hand
cards with non-positive point value when that set is non-empty, and the whole
hand otherwise; under `jd_minus_10` the jack of diamonds (worth -10) is among
the returned cards whenever it is in hand. -/
theorem legal_plays_first_trick_discard
    (hand : List Card) (ct : TrickInProgress) (rules : RuleSet)
    (hne : ct.cards ≠ [])
    (hnofollow : ∀ c ∈ hand, c.suit ≠ (ct.cards.headD default).suit)
    (hpts : rules.points_on_first_trick = false) :
    (legalPlays hand ct [] rules =
      if hand.filter (fun c => pointsForCard c rules ≤ 0) = [] then hand
      else hand.filter (fun c => pointsForCard c rules ≤ 0)) ∧
    (rules.jd_minus_10 = true → JACK_OF_DIAMONDS ∈ hand →
      JACK_OF_DIAMONDS ∈ legalPlays hand ct [] rules) := by
  have hmatches : hand.filter
      (fun c => c.suit = (ct.cards.headD default).suit) = [] := by
    rw [List.filter_eq_nil_iff]
    intro c hc
    simpa using hnofollow c hc
  have hmain : legalPlays hand ct [] rules =
      if hand.filter (fun c => pointsForCard c rules ≤ 0) = [] then hand
      else hand.filter (fun c => pointsForCard c rules ≤ 0) := by
    by_cases hnp : hand.filter (fun c => pointsForCard c rules ≤ 0) = []
    · rw [if_pos hnp]
      unfold legalPlays
      simp [hne, hmatches, hpts, hnp]
      intro x hx hsx
      exact absurd hsx (by simpa using hnofollow x hx)
    · rw [if_neg hnp]
      unfold legalPlays
      simp [hne, hmatches, hpts, hnp]
      intro x hx hsx
      exact absurd hsx (by simpa using hnofollow x hx)
  refine ⟨hmain, fun hjd hjdhand => ?_⟩
  have hjdpts : pointsForCard JACK_OF_DIAMONDS rules ≤ 0 := by
    unfold pointsForCard
    simp [JACK_OF_DIAMONDS, QUEEN_OF_SPADES, hjd, Rank.JACK, Rank.QUEEN]
  have hjdfilter : JACK_OF_DIAMONDS ∈
      hand.filter (fun c => pointsForCard c rules ≤ 0) := by
    rw [List.mem_filter]
    exact ⟨hjdhand, by simpa using hjdpts⟩
  rw [hmain]
  split
  · exact hjdhand
  · exact hjdfilter

theorem legal_plays_first_trick_discard_witness :
    legalPlays
        [⟨Rank.QUEEN, Suit.Spades⟩, ⟨⟨5⟩, Suit.Diamonds⟩, JACK_OF_DIAMONDS]
        ⟨0, [TWO_OF_CLUBS]⟩ []
        { defaultRules with jd_minus_10 := true } =
      [⟨⟨5⟩, Suit.Diamonds⟩, JACK_OF_DIAMONDS] ∧
    JACK_OF_DIAMONDS ∈ legalPlays
        [⟨Rank.QUEEN, Suit.Spades⟩, ⟨⟨5⟩, Suit.Diamonds⟩, JACK_OF_DIAMONDS]
        ⟨0, [TWO_OF_CLUBS]⟩ []
        { defaultRules with jd_minus_10 := true } := by
  have h := legal_plays_first_trick_discard
    [⟨Rank.QUEEN, Suit.Spades⟩, ⟨⟨5⟩, Suit.Diamonds⟩, JACK_OF_DIAMONDS]
    ⟨0, [TWO_OF_CLUBS]⟩ { defaultRules with jd_minus_10 := true }
    (by decide) (by decide) (by decide)
  exact ⟨by rw [h.1]; decide, h.2 (by decide) (by decide)⟩

/-- C3: with `moon_shooting = OpponentsPlus26`, when the first player whose
point total computed without the J-diamonds -10 adjustment equals 26 is `s`,
`points_for_tricks` adds +26 to every other player and -26 to `s` on top of
the adjusted per-trick totals (so the J-diamonds adjustment stays in the
shooter's total); concretely, when player 1 takes all hearts, Q-spades and
J-diamonds the result is [26, 0, 26, 26] under default rules and
[26, -10, 26, 26] with `jd_minus_10` enabled. -/
theorem points_for_tricks_moon_shooting
    (tricks : List Trick) (rules : RuleSet) (s : Nat)
    (hmoon : rules.moon_shooting = MoonShooting.OPPONENTS_PLUS_26)
    (hs : s < rules.num_players)
    (h26 : (pointsWithoutJD tricks rules).getD s 0 = 26)
    (hfirst : ∀ j < s, (pointsWithoutJD tricks rules).getD j 0 ≠ 26) :
    (∀ p < rules.num_players,
      (pointsForTricks tricks rules).getD p 0 =
        (basePoints tricks rules).getD p 0 + (if p = s then -26 else 26)) ∧
    pointsForTricks moonShootTricks defaultRules = [26, 0, 26, 26] ∧
    pointsForTricks moonShootTricks
      { defaultRules with jd_minus_10 := true } = [26, -10, 26, 26] := by
  refine ⟨?_, by decide, by decide⟩
  intro p hp
  have hlen : (pointsWithoutJD tricks rules).length = rules.num_players :=
    pointsWithoutJD_length tricks rules
  have hshooter : moonShooter tricks (basePoints tricks rules) rules = some s := by
    rw [moonShooter_eq_findShooter]
    unfold findShooter
    exact find?_range_eq_some (by rw [hlen]; exact hs) (by simpa using h26)
      (fun j hj => by simpa using hfirst j hj)
  unfold pointsForTricks
  rw [hmoon]
  simp only [hshooter]
  rw [if_pos (by decide)]
  rw [foldl_range_add_getD (fun p => if p = s then -26 else 26)
    rules.num_players (basePoints tricks rules) p
    (by rw [basePoints_length]; exact hp)]
  rw [if_pos hp]

theorem points_for_tricks_moon_shooting_witness :
    (pointsForTricks moonShootTricks defaultRules).getD 0 0 =
      (basePoints moonShootTricks defaultRules).getD 0 0 +
        (if 0 = 1 then -26 else 26) ∧
    pointsForTricks moonShootTricks defaultRules = [26, 0, 26, 26] :=
  ⟨(points_for_tricks_moon_shooting moonShootTricks defaultRules 1 rfl
      (by decide) (by decide) (by decide)).1 0 (by decide),
   (points_for_tricks_moon_shooting moonShootTricks defaultRules 1 rfl
      (by decide) (by decide) (by decide)).2.1⟩

/-- C7: `match_equity_for_scores`.  At a completed match (some score at or
above the limit) the result is `1/k` when this player's score equals the
minimum (attained by `k` players) and `0` otherwise; mid-match the result is
`(limit - my_score) / sum_i (limit - score_i)`, lies strictly between 0 and
1, and strictly increases when only this player's score is decreased. -/
theorem match_equity_for_scores_spec (scores : List Int) (L p : Nat)
    (hlen : 2 ≤ scores.length) (hp : p < scores.length) :
    ((∃ s ∈ scores, (L : Int) ≤ s) →
      ∀ m : Int, m ∈ scores → (∀ s ∈ scores, m ≤ s) →
        ((scores.getD p 0 = m →
          matchEquityForScores scores L p =
            some (1 / ((scores.countP (fun s => s = m) : Nat) : Rat))) ∧
         (scores.getD p 0 ≠ m →
          matchEquityForScores scores L p = some 0))) ∧
    ((∀ s ∈ scores, s < (L : Int)) →
      ∃ q : Rat,
        matchEquityForScores scores L p = some q ∧
        q = ((((L : Int) - scores.getD p 0 : Int)) : Rat) /
          ((((scores.map (fun s => (L : Int) - s)).sum : Int)) : Rat) ∧
        0 < q ∧ q < 1 ∧
        (∀ v : Int, v < scores.getD p 0 →
          ∃ q' : Rat,
            matchEquityForScores (scores.set p v) L p = some q' ∧ q < q')) := by
  constructor
  · -- completed-match branch
    rintro ⟨s0, hs0, hs0L⟩ m hm hmle
    have hne : scores ≠ [] := by
      intro h; rw [h] at hlen; simp at hlen
    obtain ⟨m', hmin, hm'mem, hm'le⟩ := listMinInt_spec scores hne
    have hmm : m' = m := le_antisymm (hm'le m hm) (hmle m' hm'mem)
    subst hmm
    have hred : matchEquityForScores scores L p =
        (if scores.getD p 0 > m' then some 0
         else some (1 / ((scores.countP (fun s => s = m') : Nat) : Rat))) := by
      unfold matchEquityForScores
      rw [if_neg (by omega), if_neg (fun h => h hp)]
      have hany : scores.any (fun s => decide (s ≥ (L : Int))) = true := by
        rw [List.any_eq_true]
        exact ⟨s0, hs0, by simpa using hs0L⟩
      rw [if_pos hany, hmin]
    constructor
    · intro heq
      rw [hred, if_neg (by rw [heq]; exact lt_irrefl m')]
    · intro hne'
      have : m' < scores.getD p 0 := by
        have hmem : scores.getD p 0 ∈ scores := by
          rw [getD_eq_get scores p 0 hp]; exact List.get_mem _ _ _
        exact lt_of_le_of_ne (hmle _ hmem) (Ne.symm hne')
      rw [hred, if_pos this]
  · -- mid-match branch
    intro hunder
    have hall : ∀ x ∈ scores.map (fun s => (L : Int) - s), 0 < x := by
      intro x hx
      rw [List.mem_map] at hx
      obtain ⟨s, hs, rfl⟩ := hx
      have := hunder s hs
      omega
    have hmapne : scores.map (fun s => (L : Int) - s) ≠ [] := by
      intro h
      have h0 : (scores.map (fun s => (L : Int) - s)).length = 0 := by rw [h]; rfl
      rw [List.length_map] at h0
      omega
    have hTpos : 0 < (scores.map (fun s => (L : Int) - s)).sum :=
      sum_pos_of_all_pos _ hall hmapne
    have hdpos : 0 < (L : Int) - scores.getD p 0 := by
      have hmem : scores.getD p 0 ∈ scores := by
        rw [getD_eq_get scores p 0 hp]; exact List.get_mem _ _ _
      have := hunder _ hmem
      omega
    have hsplit := sum_map_split (fun s => (L : Int) - s) scores p hp
    simp only [] at hsplit
    have hrestpos : 0 < ((scores.eraseIdx p).map (fun s => (L : Int) - s)).sum := by
      apply sum_pos_of_all_pos
      · intro x hx
        rw [List.mem_map] at hx
        obtain ⟨s, hs, rfl⟩ := hx
        have : s ∈ scores := (List.eraseIdx_sublist scores p).mem hs
        have := hunder s this
        omega
      · intro h
        have := congrArg List.length h
        rw [List.length_map, List.length_eraseIdx] at this
        simp [hp] at this
        omega
    have hdltT : (L : Int) - scores.getD p 0 <
        (scores.map (fun s => (L : Int) - s)).sum := by
      rw [hsplit]; omega
    refine ⟨_, matchEquity_mid scores L p hlen hp hunder, rfl, ?_, ?_, ?_⟩
    · apply div_pos
      · exact_mod_cast hdpos
      · exact_mod_cast hTpos
    · rw [div_lt_one (by exact_mod_cast hTpos)]
      exact_mod_cast hdltT
    · intro v hv
      have hlen' : (scores.set p v).length = scores.length := List.length_set _ _ _
      have hunder' : ∀ s ∈ scores.set p v, s < (L : Int) := by
        intro s hs
        rcases List.mem_or_eq_of_mem_set hs with hs' | heq
        · exact hunder s hs'
        · rw [heq]
          have hmem : scores.getD p 0 ∈ scores := by
            rw [getD_eq_get scores p 0 hp]; exact List.get_mem _ _ _
          exact lt_trans hv (hunder _ hmem)
      have hset : (scores.set p v).getD p 0 = v := by
        rw [getD_set_int, if_pos ⟨rfl, hp⟩]
      have hsum' : ((scores.set p v).map (fun s => (L : Int) - s)).sum =
          (scores.map (fun s => (L : Int) - s)).sum -
            ((L : Int) - scores.getD p 0) + ((L : Int) - v) := by
        have := sum_map_set (fun s => (L : Int) - s) scores p v hp
        simpa using this
      refine ⟨_, matchEquity_mid (scores.set p v) L p (by omega)
        (by rw [hlen']; exact hp) hunder', ?_⟩
      rw [hset, hsum']
      -- abbreviations: d = old distance, d' = new distance, T = old total
      set d : Int := (L : Int) - scores.getD p 0 with hd
      set d' : Int := (L : Int) - v with hd'
      set T : Int := (scores.map (fun s => (L : Int) - s)).sum with hT
      have hdd' : d < d' := by omega
      have hC : 0 < T - d := by rw [hsplit]; omega
      have h1 : (0 : Rat) < (d' : Rat) - (d : Rat) := by
        have : (d : Rat) < (d' : Rat) := by exact_mod_cast hdd'
        linarith
      have h2 : (0 : Rat) < (T : Rat) - (d : Rat) := by
        have : (d : Rat) < (T : Rat) := by exact_mod_cast hdltT
        linarith
      rw [div_lt_div_iff₀ (by exact_mod_cast hTpos)
        (by exact_mod_cast (show (0 : Int) < T - d + d' by omega))]
      push_cast
      nlinarith [mul_pos h1 h2]

/-- C9: `play_card` succeeds exactly when the card is in the current player's
hand (rule legality is not checked); on success it removes the card from that
hand and appends it to the trick in progress (resolving the trick when it
becomes full); on failure the round is left completely unchanged. -/
theorem play_card_spec (r : Round) (card : Card)
    (hplayers : r.players.length = r.rules.num_players)
    (hpos : 0 < r.rules.num_players) :
    ((r.playCard card).1 = Except.ok () ↔ card ∈ r.currentPlayer.hand) ∧
    ((r.playCard card).1 = Except.error () → (r.playCard card).2 = r) ∧
    (card ∈ r.currentPlayer.hand →
      ((r.playCard card).2.players.getD r.currentPlayerIndex default).hand =
        r.currentPlayer.hand.erase card ∧
      (if r.current_trick.cards.length + 1 = r.players.length then
        (r.playCard card).2.prev_tricks = r.prev_tricks ++
          [⟨r.current_trick.leader, r.current_trick.cards ++ [card],
            (r.current_trick.leader +
              trickWinnerIndex (r.current_trick.cards ++ [card])) %
              r.players.length⟩] ∧
        (r.playCard card).2.current_trick = TrickInProgress.new
          ((r.current_trick.leader +
            trickWinnerIndex (r.current_trick.cards ++ [card])) %
            r.players.length)
      else
        (r.playCard card).2.current_trick.cards =
          r.current_trick.cards ++ [card] ∧
        (r.playCard card).2.prev_tricks = r.prev_tricks)) := by
  have hidx : r.currentPlayerIndex < r.players.length := by
    rw [hplayers]
    exact Nat.mod_lt _ hpos
  cases hcase : (r.currentPlayer.hand).indexOf? card with
  | none =>
    have hnotmem : card ∉ r.currentPlayer.hand :=
      indexOf?_eq_none_iff_not_mem.mp hcase
    have hres : r.playCard card = (Except.error (), r) := by
      unfold Round.playCard
      rw [hcase]
    refine ⟨?_, ?_, ?_⟩
    · rw [hres]
      constructor
      · intro h; exact absurd h (by simp)
      · intro h; exact absurd h hnotmem
    · intro _; rw [hres]
    · intro h; exact absurd h hnotmem
  | some i =>
    obtain ⟨hilen, hierase⟩ := indexOf?_some_eraseIdx hcase
    have hok : (r.playCard card).1 = Except.ok () := by
      unfold Round.playCard
      rw [hcase]
      dsimp only
      split <;> rfl
    have hmem : card ∈ r.currentPlayer.hand := by
      by_contra hn
      rw [indexOf?_eq_none_iff_not_mem.mpr hn] at hcase
      exact absurd hcase (by simp)
    have hplayersset : (r.playCard card).2.players =
        r.players.set r.currentPlayerIndex
          { r.currentPlayer with hand := (r.currentPlayer.hand).eraseIdx i } := by
      unfold Round.playCard
      rw [hcase]
      dsimp only
      split <;> rfl
    refine ⟨⟨fun _ => hmem, fun _ => hok⟩, ?_, fun _ => ⟨?_, ?_⟩⟩
    · intro herr
      rw [hok] at herr
      exact absurd herr (by simp)
    · rw [hplayersset, getD_set_any, if_pos ⟨rfl, hidx⟩, hierase]
    · by_cases hfull : r.current_trick.cards.length + 1 = r.players.length
      · rw [if_pos hfull]
        have hres : r.playCard card = (Except.ok (),
            { r with
                players := r.players.set r.currentPlayerIndex
                  { r.currentPlayer with
                      hand := (r.currentPlayer.hand).eraseIdx i }
                prev_tricks := r.prev_tricks ++
                  [⟨r.current_trick.leader, r.current_trick.cards ++ [card],
                    (r.current_trick.leader +
                      trickWinnerIndex (r.current_trick.cards ++ [card])) %
                      r.players.length⟩]
                current_trick := TrickInProgress.new
                  ((r.current_trick.leader +
                    trickWinnerIndex (r.current_trick.cards ++ [card])) %
                    r.players.length) }) := by
          unfold Round.playCard
          rw [hcase]
          dsimp only
          rw [if_pos (by rw [List.length_append]; simpa using hfull)]
        rw [hres]
        exact ⟨rfl, rfl⟩
      · rw [if_neg hfull]
        have hres : r.playCard card = (Except.ok (),
            { r with
                players := r.players.set r.currentPlayerIndex
                  { r.currentPlayer with
                      hand := (r.currentPlayer.hand).eraseIdx i }
                current_trick := { r.current_trick with
                  cards := r.current_trick.cards ++ [card] } }) := by
          unfold Round.playCard
          rw [hcase]
          dsimp only
          rw [if_neg (by rw [List.length_append]; simpa using hfull)]
        rw [hres]
        exact ⟨rfl, rfl⟩

theorem play_card_spec_witness :
    (sampleRound.playCard TWO_OF_CLUBS).1 = Except.ok () ∧
    (sampleRound.playCard QUEEN_OF_SPADES).1 = Except.error () ∧
    (sampleRound.playCard QUEEN_OF_SPADES).2 = sampleRound :=
  ⟨(play_card_spec sampleRound TWO_OF_CLUBS rfl (by decide)).1.mpr (by decide),
   rfl,
   (play_card_spec sampleRound QUEEN_OF_SPADES rfl (by decide)).2.1 rfl⟩

/-- C4 counterexample: `possible_card_distribution` can succeed without
delivering a fixed card that is in the unassigned set.  With cards
[2H, 3C], player 0 needing one card with 2H fixed and player 1 needing
none, an RNG that picks index 1 gives player 0 the 3C and leaves 2H
unassigned. -/
theorem possible_card_distribution_fixed_counterexample :
    possibleCardDistribution fixedCounterReq (fun _ => 1) 0 =
      some (Except.ok [[⟨⟨3⟩, Suit.Clubs⟩], []], 1) ∧
    (⟨⟨2⟩, Suit.Hearts⟩ : Card) ∈ fixedCounterReq.cards ∧
    (⟨⟨2⟩, Suit.Hearts⟩ : Card) ∈
      (fixedCounterReq.constraints.getD 0 default).fixed_cards ∧
    (⟨⟨2⟩, Suit.Hearts⟩ : Card) ∉
      (([[⟨⟨3⟩, Suit.Clubs⟩], []] : List (List Card)).getD 0 []) := by
  refine ⟨by rfl, by decide, by decide, by decide⟩

/-- C4 (amended): on every request on which `possible_card_distribution`
returns Ok, each player `i` receives exactly `constraints[i].num_cards`
cards, none in a voided suit, and the per-player lists are pairwise disjoint
duplicate-free subsets of the request's cards; when additionally the request
is tight (the distinct unassigned cards exactly cover the players' needs,
as in every request the Monte Carlo engine builds), every fixed card of
player `i` present in the unassigned card list ends up in player `i`'s
output.  (Without tightness the fixed-card conjunct of the original claim
fails, see the counterexample.) -/
theorem possible_card_distribution_spec (req : CardDistributionRequest)
    (g : Nat → Nat) (k : Nat) (dist : List (List Card)) (k' : Nat)
    (hok : possibleCardDistribution req g k = some (Except.ok dist, k')) :
    dist.length = req.constraints.length ∧
    (∀ i, i < req.constraints.length →
      (dist.getD i []).length = (req.constraints.getD i default).num_cards) ∧
    (∀ i, i < req.constraints.length → ∀ c ∈ dist.getD i [],
      c.suit ∉ (req.constraints.getD i default).voided_suits ∧ c ∈ req.cards) ∧
    (∀ i, (dist.getD i []).Nodup) ∧
    (∀ i j, i ≠ j → ∀ c ∈ dist.getD i [], c ∉ dist.getD j []) ∧
    (req.cards.Nodup →
      (req.constraints.map (fun cs => cs.num_cards)).sum = req.cards.length →
      ∀ i, i < req.constraints.length →
        ∀ c ∈ (req.constraints.getD i default).fixed_cards, c ∈ req.cards →
          c ∈ dist.getD i []) := by
  obtain ⟨hlen, hcount, hpool, hnodup, hdisj⟩ :=
    pcdLoop_ok req g 10000 k k' dist hok
  refine ⟨hlen, hcount, ?_, hnodup, hdisj, ?_⟩
  · intro i hi c hc
    have h := mem_initialLegalPool (hpool i hi c hc)
    exact ⟨h.2.1, h.1⟩
  · intro hcards htight i hi c hcfix hccards
    by_contra hnot
    -- the fixed card can appear in no other player's output either
    have hnowhere : ∀ j, j < req.constraints.length → c ∉ dist.getD j [] := by
      intro j hj hcj
      by_cases hij : j = i
      · exact hnot (hij ▸ hcj)
      · exact (mem_initialLegalPool (hpool j hj c hcj)).2.2 i hi
          (fun hcon => hij hcon.symm) hcfix
    -- but a tight request forces every card to be assigned somewhere
    have hflat_nodup : dist.flatten.Nodup := by
      rw [List.nodup_join]
      constructor
      · intro l hl
        rw [List.mem_iff_get] at hl
        obtain ⟨⟨j, hj⟩, rfl⟩ := hl
        have := hnodup j
        rwa [getD_eq_get _ _ _ hj] at this
      · rw [List.pairwise_iff_getElem]
        intro a b ha hb hab x hxa hxb
        have h1 : x ∈ dist.getD a [] := by
          rw [getD_eq_get _ _ _ ha]; exact hxa
        have h2 : x ∈ dist.getD b [] := by
          rw [getD_eq_get _ _ _ hb]; exact hxb
        exact hdisj a b (by omega) x h1 h2
    have hsub : ∀ x ∈ dist.flatten, x ∈ req.cards.erase c := by
      intro x hx
      rw [List.mem_join] at hx
      obtain ⟨l, hl, hxl⟩ := hx
      rw [List.mem_iff_get] at hl
      obtain ⟨⟨j, hj⟩, rfl⟩ := hl
      have hjlen : j < req.constraints.length := by rw [← hlen]; exact hj
      have hxres : x ∈ dist.getD j [] := by
        rw [getD_eq_get _ _ _ hj]; exact hxl
      have hxcards := (mem_initialLegalPool (hpool j hjlen x hxres)).1
      have hxne : x ≠ c := fun h => hnowhere j hjlen (h ▸ hxres)
      rw [List.mem_erase_of_ne hxne]
      exact hxcards
    have hle : dist.flatten.length ≤ (req.cards.erase c).length :=
      (List.subperm_of_subset hflat_nodup hsub).length_le
    have herase : (req.cards.erase c).length = req.cards.length - 1 :=
      List.length_erase_of_mem hccards
    have hflatlen : dist.flatten.length =
        (req.constraints.map (fun cs => cs.num_cards)).sum := by
      rw [List.length_join]
      exact sum_map_len_eq List.length (fun cs => cs.num_cards) dist
        req.constraints [] default hlen
        (fun j hj => hcount j (by rw [← hlen]; exact hj))
    have hcardpos : 0 < req.cards.length :=
      List.length_pos.mpr (List.ne_nil_of_mem hccards)
    omega

theorem possible_card_distribution_spec_witness :
    (⟨⟨2⟩, Suit.Hearts⟩ : Card) ∈
      (([[⟨⟨2⟩, Suit.Hearts⟩], [⟨⟨3⟩, Suit.Clubs⟩]] : List (List Card)).getD
        0 []) :=
  (possible_card_distribution_spec tightReq (fun _ => 0) 0
      [[⟨⟨2⟩, Suit.Hearts⟩], [⟨⟨3⟩, Suit.Clubs⟩]] 0 (by rfl)).2.2.2.2.2
    (by decide) (by decide) 0 (by decide) _ (by decide) (by decide)

/-- C5: `possible_card_distribution` runs the single-attempt sampler at most
10000 times, returning the first success; an `Unsatisfiable` error is
returned only after every attempt in the budget has failed; and when
sampling fails inside `choose_card_monte_carlo`, the engine returns the
`choose_card_avoid_points` choice instead of surfacing the error. -/
theorem sampler_retry_and_mc_fallback (req : CardDistributionRequest)
    (g : Nat → Nat) :
    (∀ k, possibleCardDistribution req g k = pcdLoop req g 10000 k) ∧
    (∀ n k e k', pcdLoop req g n k = some (Except.error e, k') →
      e = CardError.unsatisfiableAfterRetries ∧
      ∀ j, j < n → ∃ e' k'',
        possibleCardDistributionSingle req g (attemptPos req g k j) =
          some (Except.error e', k'')) ∧
    (∀ n k res k', pcdLoop req g n k = some (Except.ok res, k') →
      ∃ j, j < n ∧
        possibleCardDistributionSingle req g (attemptPos req g k j) =
          some (Except.ok res, k') ∧
        ∀ i, i < j → ∃ e' k'',
          possibleCardDistributionSingle req g (attemptPos req g k i) =
            some (Except.error e', k'')) ∧
    (∀ (ccReq : CardToPlayDirectRequest) (mcParams : MonteCarloParams)
        (strat : CardToPlayStrategy) (k k' : Nat),
      1 < (reqLegalPlays ccReq).length →
      0 < mcParams.num_hands →
      possibleRound ccReq (makeCardDistributionReq ccReq) g k =
        some (none, k') →
      chooseCardMonteCarlo ccReq mcParams strat g k =
        chooseCardAvoidPoints ccReq g k') := by
  refine ⟨fun k => rfl, ?_, ?_, ?_⟩
  · intro n
    induction n with
    | zero =>
      intro k e k' h
      unfold pcdLoop at h
      simp only [Option.some.injEq, Prod.mk.injEq, Except.error.injEq] at h
      exact ⟨h.1.symm, fun j hj => absurd hj (by omega)⟩
    | succ n ih =>
      intro k e k' h
      unfold pcdLoop at h
      split at h
      · exact absurd h (by simp)
      · next r k1 hsingle => exact absurd h (by simp)
      · next e0 k1 hsingle =>
        obtain ⟨he, hall⟩ := ih k1 e k' h
        refine ⟨he, ?_⟩
        intro j hj
        cases j with
        | zero => exact ⟨e0, k1, hsingle⟩
        | succ j' =>
          rw [attemptPos_shift, attemptPos_one req g hsingle]
          exact hall j' (by omega)
  · intro n
    induction n with
    | zero =>
      intro k res k' h
      exact absurd h (by simp [pcdLoop])
    | succ n ih =>
      intro k res k' h
      unfold pcdLoop at h
      split at h
      · exact absurd h (by simp)
      · next r k1 hsingle =>
        simp only [Option.some.injEq, Prod.mk.injEq, Except.ok.injEq] at h
        obtain ⟨hres, hk⟩ := h
        subst hres
        subst hk
        exact ⟨0, by omega, hsingle, fun i hi => absurd hi (by omega)⟩
      · next e0 k1 hsingle =>
        obtain ⟨j, hj, hjok, hjerr⟩ := ih k1 res k' h
        refine ⟨j + 1, by omega, ?_, ?_⟩
        · rw [attemptPos_shift, attemptPos_one req g hsingle]
          exact hjok
        · intro i hi
          cases i with
          | zero => exact ⟨e0, k1, hsingle⟩
          | succ i' =>
            rw [attemptPos_shift, attemptPos_one req g hsingle]
            exact hjerr i' (by omega)
  · intro ccReq mcParams strat k k' hlp hnh hfail
    obtain ⟨n, hn⟩ : ∃ n, mcParams.num_hands = n + 1 :=
      ⟨mcParams.num_hands - 1, by omega⟩
    unfold chooseCardMonteCarlo
    rw [if_neg (by omega), if_neg (by omega)]
    dsimp only
    rw [hn, mcHands_fallback ccReq strat g (reqLegalPlays ccReq)
      (makeCardDistributionReq ccReq) mcParams.rollouts_per_hand
      (reqCurrentPlayerIndex ccReq) n
      (List.replicate (reqLegalPlays ccReq).length 0) k k' hfail]
    cases chooseCardAvoidPoints ccReq g k' <;> rfl

theorem sampler_retry_and_mc_fallback_witness :
    chooseCardMonteCarlo mcFailReq ⟨1, 1⟩ CardToPlayStrategy.AvoidPoints
        (fun _ => 0) 0 =
      chooseCardAvoidPoints mcFailReq (fun _ => 0) 0 := by
  have hconst : ∀ k, possibleCardDistributionSingle
      (makeCardDistributionReq mcFailReq) (fun _ => 0) k =
      some (Except.error CardError.cannotSatisfy, k) := fun k => rfl
  have hfail : possibleRound mcFailReq (makeCardDistributionReq mcFailReq)
      (fun _ => 0) 0 = some (none, 0) := by
    unfold possibleRound
    rw [show possibleCardDistribution (makeCardDistributionReq mcFailReq)
        (fun _ => 0) 0 =
        some (Except.error CardError.unsatisfiableAfterRetries, 0) from
      pcdLoop_const_error _ _ hconst 10000 0]
  exact (sampler_retry_and_mc_fallback (makeCardDistributionReq mcFailReq)
      (fun _ => 0)).2.2.2 mcFailReq ⟨1, 1⟩ CardToPlayStrategy.AvoidPoints 0 0
    (by decide) (by decide) hfail

/-- C8 counterexample: with `num_players = 5` (and no removed cards) the
claim demands 5 slices of size (52-0)/5 = 10, but `deal` hardcodes 4 players
of 13 cards each. -/
theorem deal_counterexample :
    (deal standardDeckCards { defaultRules with num_players := 5 }
        [0, 0, 0, 0, 0] 1).map
      (fun r => r.players.map (fun p => p.hand.length)) =
      some [13, 13, 13, 13] ∧
    ¬(4 = 5) ∧ ¬(13 = (52 - 0) / 5) := by
  refine ⟨?_, by decide, by decide⟩
  decide

/-- C8 (amended): for a 52-card deck containing the two of clubs and rules
with four players and no removed cards, `deal` splits the deck into four
contiguous 13-card slices in order, sets the status to Passing exactly when
the pass direction is nonzero, and makes the holder of the two of clubs the
trick leader.  (The source hardcodes 4 players and 13 cards and always
searches for 2C, so the original claim's arbitrary rule sets and "lowest
unremoved club" do not hold.) -/
theorem deal_spec (deckCards : List Card) (rules : RuleSet) (scores : List Int)
    (passDirection : Nat)
    (hnum : rules.num_players = 4) (hrem : rules.removed_cards = [])
    (hlen : deckCards.length = 52) (h2c : TWO_OF_CLUBS ∈ deckCards) :
    ∃ r, deal deckCards rules scores passDirection = some r ∧
      r.players.length = 4 ∧
      (∀ i < 4, (r.players.getD i default).hand =
        (deckCards.drop (13 * i)).take 13) ∧
      (∀ i < 4, (r.players.getD i default).hand.length = 13) ∧
      r.rules = rules ∧
      r.status = (if passDirection = 0 then RoundStatus.Playing
                  else RoundStatus.Passing) ∧
      findCard r.players TWO_OF_CLUBS = some r.current_trick.leader := by
  have hsplit : deckCards =
      (deckCards.drop (13 * 0)).take 13 ++ ((deckCards.drop (13 * 1)).take 13 ++
        ((deckCards.drop (13 * 2)).take 13 ++ (deckCards.drop (13 * 3)).take 13)) := by
    have h39 : (deckCards.drop 39).take 13 = deckCards.drop 39 :=
      List.take_of_length_le (by rw [List.length_drop]; omega)
    have htot : deckCards.take 52 = deckCards :=
      List.take_of_length_le (by omega)
    calc deckCards = deckCards.take 52 := htot.symm
      _ = deckCards.take 13 ++ (deckCards.drop 13).take 39 := by
          rw [show (52 : Nat) = 13 + 39 from rfl, List.take_add]
      _ = deckCards.take 13 ++ ((deckCards.drop 13).take 13 ++
            ((deckCards.drop 13).drop 13).take 26) := by
          rw [show (39 : Nat) = 13 + 26 from rfl, List.take_add]
      _ = deckCards.take 13 ++ ((deckCards.drop 13).take 13 ++
            ((deckCards.drop 26).take 13 ++ ((deckCards.drop 26).drop 13).take 13)) := by
          rw [show (26 : Nat) = 13 + 13 from rfl, List.take_add, List.drop_drop]
      _ = (deckCards.drop (13 * 0)).take 13 ++ ((deckCards.drop (13 * 1)).take 13 ++
            ((deckCards.drop (13 * 2)).take 13 ++ (deckCards.drop (13 * 3)).take 13)) := by
          rw [List.drop_drop]
          norm_num [h39, List.drop_zero]
  set players := (List.range 4).map
    (fun i => Player.new ((deckCards.drop (13 * i)).take 13)) with hplayersdef
  have hplayerseq : players =
      [Player.new ((deckCards.drop (13 * 0)).take 13),
       Player.new ((deckCards.drop (13 * 1)).take 13),
       Player.new ((deckCards.drop (13 * 2)).take 13),
       Player.new ((deckCards.drop (13 * 3)).take 13)] := rfl
  have hfind : ∃ cpi, findCard players TWO_OF_CLUBS = some cpi := by
    cases hcase : findCard players TWO_OF_CLUBS with
    | some cpi => exact ⟨cpi, rfl⟩
    | none =>
      exfalso
      unfold findCard at hcase
      rw [Option.map_eq_none'] at hcase
      rw [List.find?_eq_none] at hcase
      have hnone : ∀ i : Nat, i < 4 →
          TWO_OF_CLUBS ∉ (deckCards.drop (13 * i)).take 13 := by
        intro i hi
        intro hmem
        have : ((i, Player.new ((deckCards.drop (13 * i)).take 13)) :
            Nat × Player) ∈ players.enum := by
          rw [hplayerseq]
          interval_cases i <;> simp [List.enum, Player.new]
        have := hcase _ this
        simp [Player.new] at this
        exact this hmem
      rw [hsplit] at h2c
      simp only [List.mem_append] at h2c
      rcases h2c with h | h | h | h
      · exact hnone 0 (by omega) h
      · exact hnone 1 (by omega) h
      · exact hnone 2 (by omega) h
      · exact hnone 3 (by omega) h
  obtain ⟨cpi, hcpi⟩ := hfind
  have hdeal : deal deckCards rules scores passDirection = some
      { rules := rules
        players := players
        initial_scores := scores
        num_passed_cards := 3
        pass_direction := passDirection
        status := if passDirection = 0 then RoundStatus.Playing
                  else RoundStatus.Passing
        current_trick := TrickInProgress.new cpi
        prev_tricks := [] } := by
    unfold deal
    rw [if_neg (by omega)]
    dsimp only
    rw [← hplayersdef, hcpi]
  refine ⟨_, hdeal, by simp [hplayerseq], ?_, ?_, rfl, rfl, ?_⟩
  · intro i hi
    rw [hplayerseq]
    interval_cases i <;> rfl
  · intro i hi
    rw [hplayerseq]
    interval_cases i <;>
      simp [Player.new, List.length_take, List.length_drop, hlen]
  · exact hcpi

theorem deal_spec_witness :
    (deal standardDeckCards defaultRules [0, 0, 0, 0] 1).map
      (fun r => r.players.length) = some 4 := by
  obtain ⟨r, hr, hlen4, -, -, -, -, -⟩ :=
    deal_spec standardDeckCards defaultRules [0, 0, 0, 0] 1 rfl rfl
      (by decide) (by decide)
  rw [hr]
  simpa using hlen4

/-- C6: when every player has selected `num_passed_cards` distinct cards from
their own hand (and the round is in Passing state), `pass_cards` delivers
each seat `i`'s selection to seat `(i + pass_direction) mod num_players`,
replaces each hand by its received cards plus the kept cards with the hand
length unchanged, moves to Playing, and makes the holder of the two of clubs
the trick leader. -/
theorem pass_cards_spec (r : Round)
    (hstatus : r.status = RoundStatus.Passing)
    (hplayers : r.players.length = r.rules.num_players)
    (hpos : 0 < r.rules.num_players)
    (hsel : ∀ p ∈ r.players, p.passed_cards.length = r.num_passed_cards ∧
        p.passed_cards.Nodup ∧ ∀ c ∈ p.passed_cards, c ∈ p.hand)
    (hhand : ∀ p ∈ r.players, p.hand.Nodup)
    (h2c : ∃ p ∈ r.players, TWO_OF_CLUBS ∈ p.hand) :
    ∃ r', r.passCards = some r' ∧
      r'.players.length = r.players.length ∧
      (∀ i < r.rules.num_players,
        (r'.players.getD ((i + r.pass_direction) % r.rules.num_players)
          default).received_cards = (r.players.getD i default).passed_cards) ∧
      (∀ j < r.rules.num_players,
        (r'.players.getD j default).hand =
          (r'.players.getD j default).received_cards ++
            ((r.players.getD j default).hand.filter
              (fun c => c ∉ (r.players.getD j default).passed_cards))) ∧
      (∀ j < r.rules.num_players,
        (r'.players.getD j default).hand.length =
          (r.players.getD j default).hand.length) ∧
      r'.status = RoundStatus.Playing ∧
      findCard r'.players TWO_OF_CLUBS = some r'.current_trick.leader := by
  have hready : r.readyToPassCards = true := by
    unfold Round.readyToPassCards
    rw [hstatus]
    simp only [beq_self_eq_true, Bool.true_and, List.all_eq_true]
    intro p hp
    exact decide_eq_true (hsel p hp).1
  obtain ⟨hlen1, hfields, hrecv⟩ :=
    deliverPassedCards_spec r.players r.rules.num_players r.pass_direction
      hplayers hpos
  set n := r.rules.num_players with hn
  set dir := r.pass_direction with hdir
  set players1 := deliverPassedCards r.players n dir with hplayers1
  set players2 := players1.map rebuildHand with hplayers2
  have hlen2 : players2.length = n := by
    rw [hplayers2, List.length_map]; exact hlen1
  -- per-seat description of the post-pass players
  have hp2 : ∀ j, j < n →
      players2.getD j default = rebuildHand (players1.getD j default) := by
    intro j hj
    rw [hplayers2, getD_map_of_lt rebuildHand players1 j default default
      (by rw [hlen1]; exact hj)]
  have hp2recv : ∀ i, i < n →
      (players2.getD ((i + dir) % n) default).received_cards =
        (r.players.getD i default).passed_cards := by
    intro i hi
    rw [hp2 _ (Nat.mod_lt _ hpos)]
    show (players1.getD ((i + dir) % n) default).received_cards =
      (r.players.getD i default).passed_cards
    exact hrecv i hi
  have hp2hand : ∀ j, j < n →
      (players2.getD j default).hand =
        (players2.getD j default).received_cards ++
          ((r.players.getD j default).hand.filter
            (fun c => c ∉ (r.players.getD j default).passed_cards)) := by
    intro j hj
    rw [hp2 j hj]
    show (players1.getD j default).received_cards ++
        ((players1.getD j default).hand.filter
          (fun c => c ∉ (players1.getD j default).passed_cards)) = _
    rw [(hfields j).1, (hfields j).2]
    rfl
  have hmemorig : ∀ j, j < n → r.players.getD j default ∈ r.players := by
    intro j hj
    exact getD_mem _ _ _ (by rw [hplayers]; exact hj)
  have hp2len : ∀ j, j < n →
      (players2.getD j default).hand.length =
        (r.players.getD j default).hand.length := by
    intro j hj
    obtain ⟨i, hi, hij⟩ := pass_src_exists n dir j hpos hj
    have hr : (players2.getD j default).received_cards =
        (r.players.getD i default).passed_cards := by
      rw [← hij]; exact hp2recv i hi
    have hsrc := hsel _ (hmemorig i hi)
    have hown := hsel _ (hmemorig j hj)
    have hnod := hhand _ (hmemorig j hj)
    obtain ⟨hle, hflen⟩ := length_filter_not_mem
      (r.players.getD j default).hand (r.players.getD j default).passed_cards
      hnod hown.2.1 hown.2.2
    rw [hp2hand j hj, List.length_append, hr, hsrc.1, hflen, hown.1]
    omega
  have hcheck : ((players1.zip players2).all
      (fun pp => pp.2.hand.length = pp.1.hand.length)) = true := by
    rw [List.all_eq_true]
    intro x hx
    rw [List.mem_iff_get] at hx
    obtain ⟨⟨j, hjlt⟩, rfl⟩ := hx
    have hjlt' : j < n := by
      have := hjlt
      rw [List.length_zip, hlen1, hlen2] at this
      omega
    rw [List.get_zip]
    apply decide_eq_true
    show (players2.get _).hand.length = (players1.get _).hand.length
    have e2 : players2.get ⟨j, by rw [hlen2]; exact hjlt'⟩ =
        players2.getD j default :=
      (getD_eq_get players2 j default (by rw [hlen2]; exact hjlt')).symm
    have e1 : players1.get ⟨j, by rw [hlen1]; exact hjlt'⟩ =
        players1.getD j default :=
      (getD_eq_get players1 j default (by rw [hlen1]; exact hjlt')).symm
    rw [e2, e1, hp2len j hjlt', (hfields j).1]
  have hfind : ∃ leader, findCard players2 TWO_OF_CLUBS = some leader := by
    obtain ⟨p, hp, h2cp⟩ := h2c
    rw [List.mem_iff_get] at hp
    obtain ⟨⟨i, hilt⟩, rfl⟩ := hp
    have hilt' : i < n := by rw [← hplayers]; exact hilt
    have hgi : r.players.get ⟨i, hilt⟩ = r.players.getD i default :=
      (getD_eq_get r.players i default hilt).symm
    rw [hgi] at h2cp
    have hheld : ∃ j, j < n ∧ TWO_OF_CLUBS ∈ (players2.getD j default).hand := by
      by_cases hpass : TWO_OF_CLUBS ∈ (r.players.getD i default).passed_cards
      · refine ⟨(i + dir) % n, Nat.mod_lt _ hpos, ?_⟩
        rw [hp2hand _ (Nat.mod_lt _ hpos), List.mem_append]
        exact Or.inl (by rw [hp2recv i hilt']; exact hpass)
      · refine ⟨i, hilt', ?_⟩
        rw [hp2hand i hilt', List.mem_append]
        refine Or.inr ?_
        rw [List.mem_filter]
        exact ⟨h2cp, by simpa using hpass⟩
    obtain ⟨j, hj, hmem⟩ := hheld
    have hsome : ((players2.enum).find?
        (fun x => TWO_OF_CLUBS ∈ x.2.hand)).isSome = true := by
      rw [List.find?_isSome]
      refine ⟨(j, players2.getD j default), ?_, by simpa using hmem⟩
      have hjlen : j < players2.enum.length := by
        rw [List.enum_length, hlen2]; exact hj
      have : players2.enum.get ⟨j, hjlen⟩ = (j, players2.getD j default) := by
        rw [List.get_enum]
        refine congrArg _ ?_
        exact (getD_eq_get players2 j default (by rw [hlen2]; exact hj)).symm
      rw [← this]
      exact List.get_mem _ _ _
    obtain ⟨pair, hpair⟩ := Option.isSome_iff_exists.mp hsome
    exact ⟨pair.1, by unfold findCard; rw [hpair]; rfl⟩
  obtain ⟨leader, hleader⟩ := hfind
  have hres : r.passCards = some
      { r with
          players := players2
          current_trick := { r.current_trick with leader := leader }
          status := RoundStatus.Playing } := by
    unfold Round.passCards
    rw [if_neg (by rw [hready]; simp)]
    dsimp only
    rw [← hn, ← hdir, ← hplayers1, ← hplayers2]
    rw [if_neg (by rw [hcheck]; simp), hleader]
  refine ⟨_, hres, ?_, ?_, ?_, ?_, rfl, ?_⟩
  · show players2.length = r.players.length
    rw [hlen2, hplayers]
  · intro i hi
    exact hp2recv i hi
  · intro j hj
    exact hp2hand j hj
  · intro j hj
    exact hp2len j hj
  · show findCard players2 TWO_OF_CLUBS = some leader
    exact hleader

theorem pass_cards_spec_witness :
    (samplePassingRound.passCards).map (fun r' => r'.status) =
      some RoundStatus.Playing := by
  obtain ⟨r', hr', -, -, -, -, hstat, -⟩ :=
    pass_cards_spec samplePassingRound rfl rfl (by decide) (by decide)
      (by decide) (by decide)
  rw [hr']
  simp [hstat]

theorem match_equity_for_scores_spec_witness :
    matchEquityForScores [50, 60, 100, 60] 100 0 = some 1 := by
  have h := ((match_equity_for_scores_spec [50, 60, 100, 60] 100 0
      (by decide) (by decide)).1
      ⟨100, by decide, by decide⟩ 50 (by decide) (by decide)).1 (by decide)
  rw [h]
  have hcount : ([50, 60, 100, 60] : List Int).countP (fun s => s = 50) = 1 := by
    decide
  rw [hcount]
  norm_num

/-- C1: for every request, strategy and RNG, whenever `choose_card` returns a
card, that card is an element of `legal_plays(request)`. -/
theorem choose_card_in_legal_plays {req : CardToPlayDirectRequest}
    {strategy : CardToPlayStrategy} {g : Nat → Nat} {k : Nat} {c : Card}
    {k' : Nat} (h : chooseCard req strategy g k = some (c, k')) :
    c ∈ reqLegalPlays req := by
  unfold chooseCard at h
  split at h
  · exact chooseCardNonrecursive_mem h
  · split at h
    · exact chooseCardMonteCarlo_mem h
    · exact chooseCardMonteCarlo_mem h
    · exact chooseCardMonteCarlo_mem h
    · exact absurd h (by simp)



/-- Witness for C1: on `sampleRound` (player 0 to lead holding only 2-clubs),
`choose_card` with the Random strategy returns 2-clubs, which is legal. -/
theorem choose_card_in_legal_plays_witness :
    TWO_OF_CLUBS ∈ reqLegalPlays (roundToReq sampleRound) :=
  @choose_card_in_legal_plays (roundToReq sampleRound)
    CardToPlayStrategy.Random (fun _ => 0) 0 TWO_OF_CLUBS 1 (by decide)

end RH
